import Mathlib

/-!
Verification of the HyperAgent protocol-level resolution and execution core.

The TypeScript sources are shallowly embedded: JavaScript strings are
`List Char`, numbers are `Nat`/`Int`/`ℚ` as appropriate, maps are
association lists with JavaScript `Map`/object-key semantics, and the
event-driven settle detector is a discrete-time state machine.
-/

namespace HyperAgent

/-- JavaScript strings are modelled as lists of characters. -/
abbrev JSStr := List Char

/-! ### Decimal rendering and parsing (JS number-to-string / parseInt) -/

/-- Fuel-driven helper for `natDigitsRev`; `fuel ≥ n` is always enough. -/
def natDigitsRevAux : Nat → Nat → List Nat
  | 0, n => [n % 10]
  | fuel + 1, n => if n < 10 then [n] else (n % 10) :: natDigitsRevAux fuel (n / 10)

/-- The decimal digits of `n`, least significant first. -/
def natDigitsRev (n : Nat) : List Nat := natDigitsRevAux n n

theorem natDigitsRevAux_irrel : ∀ f g n : Nat, n ≤ f → n ≤ g →
    natDigitsRevAux f n = natDigitsRevAux g n := by
  intro f
  induction f with
  | zero =>
    intro g n hf hg
    have hn : n = 0 := Nat.le_zero.mp hf
    subst hn
    cases g with
    | zero => rfl
    | succ g' => simp [natDigitsRevAux]
  | succ f' ih =>
    intro g n hf hg
    by_cases h10 : n < 10
    · cases g with
      | zero =>
        have hn : n = 0 := Nat.le_zero.mp hg
        subst hn; simp [natDigitsRevAux]
      | succ g' => simp [natDigitsRevAux, h10]
    · cases g with
      | zero => omega
      | succ g' =>
        simp only [natDigitsRevAux, if_neg h10]
        have hlt : n / 10 < n := Nat.div_lt_self (by omega) (by omega)
        rw [ih g' (n / 10) (by omega) (by omega)]

theorem natDigitsRev_eq (n : Nat) :
    natDigitsRev n = if n < 10 then [n] else (n % 10) :: natDigitsRev (n / 10) := by
  by_cases h10 : n < 10
  · rw [if_pos h10]
    cases n with
    | zero => rfl
    | succ m => simp [natDigitsRev, natDigitsRevAux, h10]
  · rw [if_neg h10]
    obtain ⟨m, hm⟩ := Nat.exists_eq_succ_of_ne_zero (by omega : n ≠ 0)
    subst hm
    show natDigitsRevAux (m + 1) (m + 1) = _
    simp only [natDigitsRevAux, if_neg h10]
    have hlt : (m + 1) / 10 < m + 1 := Nat.div_lt_self (by omega) (by omega)
    exact congrArg _
      (natDigitsRevAux_irrel m ((m + 1) / 10) ((m + 1) / 10) (by omega) (le_refl _))

/-- A single decimal digit as a character. -/
def digitChar (d : Nat) : Char :=
  match d with
  | 0 => '0' | 1 => '1' | 2 => '2' | 3 => '3' | 4 => '4'
  | 5 => '5' | 6 => '6' | 7 => '7' | 8 => '8' | 9 => '9'
  | _ => '*'

/-- Render a natural number in decimal, the way JS string interpolation
renders a non-negative integer. -/
def natToDec (n : Nat) : JSStr :=
  (natDigitsRev n).reverse.map digitChar

/-- Numeric value of a digit character. -/
def charVal (c : Char) : Nat := c.toNat - '0'.toNat

/-- Accumulate the value of a digit string. -/
def parseDecDigits (cs : JSStr) : Nat :=
  cs.foldl (fun a c => a * 10 + charVal c) 0

/-- JS `parseInt(s, 10)`: an optional sign, then the maximal run of leading
decimal digits; `none` models `NaN` (no digits at all). -/
def parseIntJS (cs : JSStr) : Option Int :=
  let sign : Int × JSStr :=
    match cs with
    | [] => (1, [])
    | c :: rest =>
      if c = '-' then (-1, rest) else if c = '+' then (1, rest) else (1, c :: rest)
  let ds := sign.2.takeWhile Char.isDigit
  if ds.isEmpty then none else some (sign.1 * (parseDecDigits ds : Int))

/-- JS `s.split("-")`. -/
def splitDash : JSStr → List JSStr
  | [] => [[]]
  | c :: cs =>
    if c = '-' then [] :: splitDash cs
    else
      match splitDash cs with
      | [] => [[c]]
      | h :: t => (c :: h) :: t

/-! ### EncodedId creation, parsing and validation

From `src/context-providers/a11y-dom/utils.ts` (`createEncodedId`,
`parseEncodedId`) and the types module (`ID_PATTERN`, `toEncodedId`). -/

/-- `createEncodedId`: serialize `(frameIndex, backendNodeId)` as
`"frameIndex-backendNodeId"`. -/
def createEncodedId (frameIndex backendNodeId : Nat) : JSStr :=
  natToDec frameIndex ++ '-' :: natToDec backendNodeId

/-- `parseEncodedId`: split on `"-"` and `parseInt` the first two parts.
A missing part maps to `none` (JS `parseInt(undefined)` is `NaN`). -/
def parseEncodedId (cs : JSStr) : Option Int × Option Int :=
  match splitDash cs with
  | [] => (none, none)
  | [a] => (parseIntJS a, none)
  | a :: b :: _ => (parseIntJS a, parseIntJS b)

/-- The `ID_PATTERN` regex test `^\d+-\d+$`. -/
def testIdPattern (cs : JSStr) : Bool :=
  let d1 := cs.takeWhile Char.isDigit
  let rest := cs.dropWhile Char.isDigit
  (!d1.isEmpty) &&
    (match rest with
     | '-' :: r2 => (!r2.isEmpty) && r2.all Char.isDigit
     | _ => false)

/-- `toEncodedId`: validate against `ID_PATTERN`, throwing on mismatch. -/
def toEncodedId (cs : JSStr) : Except String JSStr :=
  if testIdPattern cs then .ok cs else .error "Invalid EncodedId format"

/-! ### Lemmas about decimal rendering -/

theorem natDigitsRev_lt (n : Nat) : ∀ d ∈ natDigitsRev n, d < 10 := by
  induction n using Nat.strong_induction_on with
  | _ n ih =>
    intro d hd
    rw [natDigitsRev_eq] at hd
    by_cases h : n < 10
    · simp [h] at hd; omega
    · simp [h] at hd
      rcases hd with h1 | h2
      · omega
      · exact ih (n / 10) (Nat.div_lt_self (by omega) (by omega)) d h2

theorem natDigitsRev_ne_nil (n : Nat) : natDigitsRev n ≠ [] := by
  rw [natDigitsRev_eq]
  by_cases h : n < 10 <;> simp [h]

theorem digitChar_isDigit {d : Nat} (hd : d < 10) : (digitChar d).isDigit = true := by
  interval_cases d <;> decide

theorem charVal_digitChar {d : Nat} (hd : d < 10) : charVal (digitChar d) = d := by
  interval_cases d <;> decide

theorem digitChar_ne_dash {d : Nat} (hd : d < 10) : digitChar d ≠ '-' := by
  interval_cases d <;> decide

theorem natToDec_all_digits (n : Nat) : ∀ c ∈ natToDec n, c.isDigit = true := by
  intro c hc
  simp only [natToDec, List.mem_map, List.mem_reverse] at hc
  obtain ⟨d, hd, rfl⟩ := hc
  exact digitChar_isDigit (natDigitsRev_lt n d hd)

theorem natToDec_ne_nil (n : Nat) : natToDec n ≠ [] := by
  simp [natToDec, natDigitsRev_ne_nil]

theorem natToDec_no_dash (n : Nat) : ∀ c ∈ natToDec n, c ≠ '-' := by
  intro c hc
  have hd := natToDec_all_digits n c hc
  intro h; subst h; exact absurd hd (by decide)

theorem parseDecDigits_append_digit (cs : JSStr) (c : Char) :
    parseDecDigits (cs ++ [c]) = parseDecDigits cs * 10 + charVal c := by
  simp [parseDecDigits]

theorem parseDecDigits_natToDec_aux (n : Nat) :
    ∀ a : Nat, ((natDigitsRev n).reverse.map digitChar).foldl
      (fun a c => a * 10 + charVal c) a = a * 10 ^ (natDigitsRev n).length + n := by
  induction n using Nat.strong_induction_on with
  | _ n ih =>
    intro a
    rw [natDigitsRev_eq]
    by_cases h : n < 10
    · simp [h, charVal_digitChar h]
    · simp only [h, if_false]
      have hrec := ih (n / 10) (Nat.div_lt_self (by omega) (by omega))
      simp only [List.reverse_cons, List.map_append, List.foldl_append, List.map_cons,
        List.map_nil, List.foldl_cons, List.foldl_nil, List.length_cons]
      rw [hrec a, charVal_digitChar (by omega)]
      rw [pow_succ]
      have := Nat.div_add_mod n 10
      ring_nf
      omega

theorem parseDecDigits_natToDec (n : Nat) : parseDecDigits (natToDec n) = n := by
  have := parseDecDigits_natToDec_aux n 0
  simpa [parseDecDigits, natToDec] using this

theorem parseIntJS_natToDec (n : Nat) : parseIntJS (natToDec n) = some (n : Int) := by
  have hne := natToDec_ne_nil n
  have hdig := natToDec_all_digits n
  have htake : (natToDec n).takeWhile Char.isDigit = natToDec n :=
    List.takeWhile_eq_self_iff.mpr hdig
  match hmatch : natToDec n with
  | [] => exact absurd hmatch hne
  | c :: rest =>
    have hc : c.isDigit = true := hdig c (by rw [hmatch]; exact List.mem_cons_self _ _)
    have hcne : ¬(c = '-') := by rintro rfl; exact absurd hc (by decide)
    have hcne2 : ¬(c = '+') := by rintro rfl; exact absurd hc (by decide)
    rw [hmatch] at htake
    unfold parseIntJS
    simp only [if_neg hcne, if_neg hcne2, htake]
    rw [if_neg (by simp)]
    rw [show (c :: rest : JSStr) = natToDec n from hmatch.symm, parseDecDigits_natToDec]
    simp

theorem splitDash_append (xs ys : JSStr) (hx : ∀ c ∈ xs, c ≠ '-') :
    splitDash (xs ++ '-' :: ys) = xs :: splitDash ys := by
  induction xs with
  | nil => simp [splitDash]
  | cons c cs ih =>
    have hc : c ≠ '-' := hx c (List.mem_cons_self _ _)
    have ih' := ih (fun d hd => hx d (List.mem_cons_of_mem _ hd))
    simp only [List.cons_append, splitDash, if_neg hc]
    rw [show cs.append ('-' :: ys) = cs ++ '-' :: ys from rfl, ih']

theorem splitDash_no_dash (xs : JSStr) (hx : ∀ c ∈ xs, c ≠ '-') :
    splitDash xs = [xs] := by
  induction xs with
  | nil => rfl
  | cons c cs ih =>
    have hc : c ≠ '-' := hx c (List.mem_cons_self _ _)
    have ih' := ih (fun d hd => hx d (List.mem_cons_of_mem _ hd))
    simp only [splitDash, if_neg hc, ih']

theorem splitDash_createEncodedId (f b : Nat) :
    splitDash (createEncodedId f b) = [natToDec f, natToDec b] := by
  rw [createEncodedId, splitDash_append _ _ (natToDec_no_dash f),
    splitDash_no_dash _ (natToDec_no_dash b)]

theorem testIdPattern_createEncodedId (f b : Nat) :
    testIdPattern (createEncodedId f b) = true := by
  have hfd := natToDec_all_digits f
  have hbd := natToDec_all_digits b
  have htake : (createEncodedId f b).takeWhile Char.isDigit = natToDec f := by
    rw [createEncodedId]
    rw [List.takeWhile_append]
    rw [List.takeWhile_eq_self_iff.mpr hfd]
    simp [natToDec_ne_nil f]
  have hdrop : (createEncodedId f b).dropWhile Char.isDigit = '-' :: natToDec b := by
    rw [createEncodedId]
    rw [List.dropWhile_append]
    rw [List.dropWhile_eq_nil_iff.mpr hfd]
    simp [natToDec_ne_nil f, List.dropWhile_cons]
  unfold testIdPattern
  simp only [htake, hdrop]
  rw [Bool.and_eq_true, Bool.and_eq_true]
  refine ⟨by simp [natToDec_ne_nil f], by simp [natToDec_ne_nil b], ?_⟩
  rw [List.all_eq_true]
  exact hbd

theorem natToDec_injective {m n : Nat} (h : natToDec m = natToDec n) : m = n := by
  have hm := parseDecDigits_natToDec m
  rw [h, parseDecDigits_natToDec n] at hm
  exact hm.symm

/-- Lists free of `'-'` followed by `'-'` split a concatenation uniquely. -/
theorem dashFree_append_inj {A B t s : JSStr}
    (hA : ∀ c ∈ A, c ≠ '-') (hB : ∀ c ∈ B, c ≠ '-')
    (h : A ++ '-' :: t = B ++ '-' :: s) : A = B ∧ t = s := by
  induction A generalizing B with
  | nil =>
    cases B with
    | nil => simpa using h
    | cons c B' =>
      exfalso
      have : '-' = c := by simpa using congrArg (fun l => l.headI) h
      exact hB c (List.mem_cons_self _ _) this.symm
  | cons a A' ih =>
    cases B with
    | nil =>
      exfalso
      have : a = '-' := by simpa using congrArg (fun l => l.headI) h
      exact hA a (List.mem_cons_self _ _) this
    | cons c B' =>
      simp only [List.cons_append, List.cons.injEq] at h
      obtain ⟨rfl, h2⟩ := h
      have := ih (fun x hx => hA x (List.mem_cons_of_mem _ hx))
        (fun x hx => hB x (List.mem_cons_of_mem _ hx)) h2
      exact ⟨by rw [this.1], this.2⟩

theorem createEncodedId_inj {f b f' b' : Nat}
    (h : createEncodedId f b = createEncodedId f' b') : f = f' ∧ b = b' := by
  have := dashFree_append_inj (natToDec_no_dash f) (natToDec_no_dash f') h
  exact ⟨natToDec_injective this.1, natToDec_injective this.2⟩

/-- C10.  Round trip of the serialized id: parsing recovers the pair, the id
matches `ID_PATTERN`, and `toEncodedId` succeeds. -/
theorem encodedId_roundtrip (f b : Nat) :
    parseEncodedId (createEncodedId f b) = (some (f : Int), some (b : Int)) ∧
    testIdPattern (createEncodedId f b) = true ∧
    toEncodedId (createEncodedId f b) = .ok (createEncodedId f b) := by
  refine ⟨?_, testIdPattern_createEncodedId f b, ?_⟩
  · rw [parseEncodedId, splitDash_createEncodedId]
    simp [parseIntJS_natToDec]
  · rw [toEncodedId, if_pos (testIdPattern_createEncodedId f b)]

/-! ### EncodedId resolution in the tree builder (build-tree.ts, pass 1)

`buildHierarchicalTree` builds a `backendId → EncodedId[]` lookup from the
tag-name map's keys (`+backend` of the part after the dash), then resolves a
kept node's id: no matches gives the synthesized fallback id, otherwise the
first match with the `"frameIndex-"` text prefix is used, with the fallback
again when no match carries that prefix. -/

/-- JS `Number(s)` restricted to the strings that occur as id components:
empty is `0`, digit strings parse, anything else is `NaN` (`none`). -/
def numJS (cs : JSStr) : Option Int :=
  if cs.isEmpty then some 0
  else if cs.all Char.isDigit then some (parseDecDigits cs) else none

/-- JS `Number(s)` for the id-component and node-id strings that occur here:
empty is `0`, decimal strings (optionally negative) parse, anything else is
`NaN` (`none`). -/
def jsNumber (cs : JSStr) : Option Int :=
  if cs.isEmpty then some 0
  else if cs.all Char.isDigit then some (parseDecDigits cs)
  else
    match cs with
    | '-' :: rest =>
      if !rest.isEmpty && rest.all Char.isDigit then
        some (-(parseDecDigits rest : Int))
      else none
    | _ => none

/-- `+backend` where `const [, backend] = enc.split('-')`. -/
def backendComp (cs : JSStr) : Option Int :=
  match splitDash cs with
  | _ :: b :: _ => numJS b
  | _ => none

/-- The `backendToIds.get(backendId) ?? []` bucket: map keys whose backend
component equals the node's backend id, in insertion order. -/
def backendMatches (keys : List JSStr) (b : Nat) : List JSStr :=
  keys.filter (fun k => decide (backendComp k = some (b : Int)))

/-- The JS template `` `${frameIndex}-` `` used with `startsWith`. -/
def framePref (frameIndex : Nat) : JSStr := natToDec frameIndex ++ ['-']

/-- Pass-1 EncodedId resolution for a kept node with backend id `b`. -/
def resolveEncodedId (keys : List JSStr) (frameIndex b : Nat) : JSStr :=
  if (backendMatches keys b).isEmpty then createEncodedId frameIndex b
  else
    match (backendMatches keys b).find?
        (fun k => (framePref frameIndex).isPrefixOf k) with
    | some k => k
    | none => createEncodedId frameIndex b

theorem backendComp_createEncodedId (f b : Nat) :
    backendComp (createEncodedId f b) = some (b : Int) := by
  unfold backendComp
  rw [splitDash_createEncodedId]
  show numJS (natToDec b) = some (b : Int)
  unfold numJS
  rw [if_neg (by simp [natToDec_ne_nil b]),
    if_pos (by rw [List.all_eq_true]; exact natToDec_all_digits b)]
  rw [parseDecDigits_natToDec]

theorem framePref_isPrefixOf_self (f b : Nat) :
    (framePref f).isPrefixOf (createEncodedId f b) = true := by
  rw [List.isPrefixOf_iff_prefix]
  exact ⟨natToDec b, by simp [framePref, createEncodedId]⟩

theorem framePref_isPrefixOf_canonical {f f' b' : Nat}
    (h : (framePref f).isPrefixOf (createEncodedId f' b') = true) : f = f' := by
  rw [List.isPrefixOf_iff_prefix] at h
  obtain ⟨t, ht⟩ := h
  have ht' : natToDec f ++ '-' :: t = natToDec f' ++ '-' :: natToDec b' := by
    simpa [framePref, createEncodedId] using ht
  exact natToDec_injective
    (dashFree_append_inj (natToDec_no_dash f) (natToDec_no_dash f') ht').1

theorem find?_eq_some_of_unique {α : Type} {l : List α} {p : α → Bool} {x : α}
    (hx : x ∈ l) (hpx : p x = true) (huniq : ∀ y ∈ l, p y = true → y = x) :
    l.find? p = some x := by
  induction l with
  | nil => cases hx
  | cons h t ih =>
    by_cases hp : p h = true
    · rw [List.find?_cons_of_pos _ hp, huniq h (List.mem_cons_self _ _) hp]
    · rw [List.find?_cons_of_neg _ hp]
      rcases List.mem_cons.mp hx with rfl | hxt
      · exact absurd hpx hp
      · exact ih hxt (fun y hy => huniq y (List.mem_cons_of_mem _ hy))

/-- C2.  For a kept node with backend id `b` while building frame
`frameIndex`: when the map holds the (unique) EncodedId for that backend id
in the current frame, it is assigned; when the map holds no EncodedId for
that backend id at all, the fallback `frameIndex-backendNodeId` is assigned. -/
theorem resolveEncodedId_spec (keys : List JSStr) (f b : Nat)
    (hcanon : ∀ k ∈ keys, ∃ p : Nat × Nat, k = createEncodedId p.1 p.2) :
    (createEncodedId f b ∈ keys →
      resolveEncodedId keys f b = createEncodedId f b) ∧
    ((∀ k ∈ keys, backendComp k ≠ some (b : Int)) →
      resolveEncodedId keys f b = createEncodedId f b) := by
  constructor
  · intro hmem
    have hmem' : createEncodedId f b ∈ backendMatches keys b := by
      rw [backendMatches, List.mem_filter]
      exact ⟨hmem, by simp [backendComp_createEncodedId]⟩
    have hne : (backendMatches keys b).isEmpty = false := by
      cases hb : backendMatches keys b with
      | nil => rw [hb] at hmem'; cases hmem'
      | cons x xs => simp
    have hfind : (backendMatches keys b).find?
        (fun k => (framePref f).isPrefixOf k) = some (createEncodedId f b) := by
      refine find?_eq_some_of_unique hmem' (framePref_isPrefixOf_self f b) ?_
      intro y hy hpy
      have hyk : y ∈ keys := List.mem_of_mem_filter hy
      obtain ⟨⟨f', b'⟩, rfl⟩ := hcanon y hyk
      have hbc : backendComp (createEncodedId f' b') = some (b : Int) := by
        have := (List.mem_filter.mp hy).2
        simpa using this
      rw [backendComp_createEncodedId] at hbc
      have hb' : b' = b := by
        have := Option.some.inj hbc
        exact_mod_cast this
      have hf' : f = f' := framePref_isPrefixOf_canonical hpy
      rw [hb', ← hf']
    unfold resolveEncodedId
    rw [hne]
    simp only [Bool.false_eq_true, if_false, hfind]
  · intro hnone
    have hempty : backendMatches keys b = [] := by
      rw [backendMatches, List.filter_eq_nil_iff]
      intro k hk
      simpa using hnone k hk
    unfold resolveEncodedId
    rw [hempty]
    simp

/-- Closed instantiation of `resolveEncodedId_spec`. -/
theorem resolveEncodedId_spec_witness :
    resolveEncodedId [createEncodedId 0 3, createEncodedId 1 5] 1 5 =
      createEncodedId 1 5 ∧
    resolveEncodedId [createEncodedId 0 3] 1 5 = createEncodedId 1 5 := by
  constructor
  · exact (resolveEncodedId_spec [createEncodedId 0 3, createEncodedId 1 5] 1 5
      (by intro k hk
          rcases List.mem_cons.mp hk with rfl | hk'
          · exact ⟨(0, 3), rfl⟩
          · rcases List.mem_cons.mp hk' with rfl | h
            · exact ⟨(1, 5), rfl⟩
            · cases h)).1 (by decide)
  · exact (resolveEncodedId_spec [createEncodedId 0 3] 1 5
      (by intro k hk
          rcases List.mem_cons.mp hk with rfl | h
          · exact ⟨(0, 3), rfl⟩
          · cases h)).2 (by decide)

/-! ### Merging per-frame tree results (`mergeTreeResults`)

From the accessibility DOM provider: the per-frame `TreeResult`s are merged
by repeated `Map.set` / `Object.assign`, and the serialized texts are joined
with blank-line separators. -/

/-- JS `Map.set` / object-property assignment on an insertion-ordered
association list: an existing key keeps its position and gets the new value,
a fresh key is appended. -/
def jsMapSet {α : Type} : List (JSStr × α) → JSStr → α → List (JSStr × α)
  | [], k, v => [(k, v)]
  | (k', v') :: rest, k, v =>
    if k' = k then (k', v) :: rest else (k', v') :: jsMapSet rest k v

/-- JS `Map.get` / property lookup. -/
def jsMapGet {α : Type} : List (JSStr × α) → JSStr → Option α
  | [], _ => none
  | (k', v') :: rest, k => if k' = k then some v' else jsMapGet rest k

/-- The value of the LAST binding of `k` in a raw binding list. -/
def lastBinding {α : Type} : List (JSStr × α) → JSStr → Option α
  | [], _ => none
  | (k', v') :: rest, k =>
    match lastBinding rest k with
    | some v => some v
    | none => if k' = k then some v' else none

/-- Set every entry of `entries` into `acc`, in order. -/
def setAllEntries {α : Type} (acc : List (JSStr × α))
    (entries : List (JSStr × α)) : List (JSStr × α) :=
  entries.foldl (fun a e => jsMapSet a e.1 e.2) acc

/-- The fields of a per-frame `TreeResult` that the merge consumes. -/
structure TreeResultM (α : Type) where
  idToElement : List (JSStr × α)
  xpathMap : List (JSStr × JSStr)
  simplified : JSStr

/-- The combined state `mergeTreeResults` returns. -/
structure MergedState (α : Type) where
  elements : List (JSStr × α)
  xpathMap : List (JSStr × JSStr)
  domState : JSStr

/-- `mergeTreeResults`: union the id indexes by `Map.set`, the xpath maps by
`Object.assign`, and join the serialized texts with `"\n\n"`. -/
def mergeTreeResults {α : Type} (treeResults : List (TreeResultM α)) :
    MergedState α :=
  { elements := treeResults.foldl (fun acc r => setAllEntries acc r.idToElement) []
    xpathMap := treeResults.foldl (fun acc r => setAllEntries acc r.xpathMap) []
    domState :=
      List.intercalate ['\n', '\n'] (treeResults.map (fun r => r.simplified)) }

/-- A simplified accessibility-node record, enough to tell two merged
entries apart. -/
structure MNode where
  role : JSStr
  name : JSStr
deriving DecidableEq

/-- C1 counterexample.  Two frame results both binding EncodedId `0-5`: the
merge keeps only the later frame's node and silently drops the earlier one —
`mergeTreeResults` performs no duplicate detection, it overwrites. -/
theorem mergeTreeResults_overwrites_duplicate :
    (mergeTreeResults
        [⟨[(createEncodedId 0 5, (⟨['b'], ['A']⟩ : MNode))], [], []⟩,
         ⟨[(createEncodedId 0 5, (⟨['l'], ['B']⟩ : MNode))], [], []⟩]).elements =
      [(createEncodedId 0 5, (⟨['l'], ['B']⟩ : MNode))] ∧
    (⟨['b'], ['A']⟩ : MNode) ≠ (⟨['l'], ['B']⟩ : MNode) ∧
    ∀ p ∈ (mergeTreeResults
        [⟨[(createEncodedId 0 5, (⟨['b'], ['A']⟩ : MNode))], [], []⟩,
         ⟨[(createEncodedId 0 5, (⟨['l'], ['B']⟩ : MNode))], [], []⟩]).elements,
      p.2 ≠ (⟨['b'], ['A']⟩ : MNode) := by decide

theorem jsMapGet_jsMapSet {α : Type} (m : List (JSStr × α)) (k q : JSStr) (v : α) :
    jsMapGet (jsMapSet m k v) q = if k = q then some v else jsMapGet m q := by
  induction m with
  | nil =>
    by_cases hkq : k = q <;> simp [jsMapSet, jsMapGet, hkq]
  | cons e rest ih =>
    obtain ⟨k', v'⟩ := e
    by_cases hk : k' = k
    · subst hk
      by_cases hq : k' = q <;> simp [jsMapSet, jsMapGet, hq]
    · by_cases hq : k' = q
      · subst hq
        have hkq : ¬(k = k') := fun h => hk h.symm
        simp [jsMapSet, jsMapGet, hk, hkq]
      · simp [jsMapSet, jsMapGet, hk, hq, ih]

theorem jsMapGet_setAllEntries {α : Type} (entries : List (JSStr × α))
    (acc : List (JSStr × α)) (q : JSStr) :
    jsMapGet (setAllEntries acc entries) q =
      match lastBinding entries q with
      | some v => some v
      | none => jsMapGet acc q := by
  induction entries generalizing acc with
  | nil => simp [setAllEntries, lastBinding]
  | cons e rest ih =>
    obtain ⟨k, v⟩ := e
    show jsMapGet (setAllEntries (jsMapSet acc k v) rest) q = _
    rw [ih]
    cases hr : lastBinding rest q with
    | some w => simp [lastBinding, hr]
    | none =>
      simp only [lastBinding, hr, jsMapGet_jsMapSet]
      by_cases hkq : k = q <;> simp [hkq]

theorem mapKeys_jsMapSet_subset {α : Type} (m : List (JSStr × α)) (k : JSStr)
    (v : α) : ∀ q ∈ (jsMapSet m k v).map (fun p => p.1),
      q ∈ m.map (fun p => p.1) ∨ q = k := by
  induction m with
  | nil =>
    intro q hq
    simp only [jsMapSet, List.map_cons, List.map_nil, List.mem_cons,
      List.not_mem_nil, or_false] at hq
    exact Or.inr hq
  | cons e rest ih =>
    obtain ⟨k', v'⟩ := e
    intro q hq
    by_cases hk : k' = k
    · simp only [jsMapSet, if_pos hk, List.map_cons, List.mem_cons] at hq
      rcases hq with rfl | hq
      · exact Or.inl (List.mem_map_of_mem _ (List.mem_cons_self _ _))
      · exact Or.inl (by rw [List.map_cons]; exact List.mem_cons_of_mem _ hq)
    · simp only [jsMapSet, if_neg hk, List.map_cons, List.mem_cons] at hq
      rcases hq with rfl | hq
      · exact Or.inl (List.mem_map_of_mem _ (List.mem_cons_self _ _))
      · rcases ih q hq with h | h
        · exact Or.inl (by rw [List.map_cons]; exact List.mem_cons_of_mem _ h)
        · exact Or.inr h

theorem nodupKeys_jsMapSet {α : Type} (m : List (JSStr × α)) (k : JSStr) (v : α)
    (h : (m.map (fun p => p.1)).Nodup) :
    ((jsMapSet m k v).map (fun p => p.1)).Nodup := by
  induction m with
  | nil => simp [jsMapSet]
  | cons e rest ih =>
    obtain ⟨k', v'⟩ := e
    simp only [List.map_cons, List.nodup_cons] at h
    by_cases hk : k' = k
    · subst hk
      simp only [jsMapSet, eq_self_iff_true, if_true, List.map_cons, List.nodup_cons]
      exact h
    · simp only [jsMapSet, if_neg hk, List.map_cons, List.nodup_cons]
      refine ⟨?_, ih h.2⟩
      intro hmem
      rcases mapKeys_jsMapSet_subset rest k v k' hmem with hcontra | hcontra
      · exact h.1 hcontra
      · exact hk hcontra

theorem nodupKeys_setAllEntries {α : Type} (entries : List (JSStr × α))
    (acc : List (JSStr × α)) (h : (acc.map (fun p => p.1)).Nodup) :
    ((setAllEntries acc entries).map (fun p => p.1)).Nodup := by
  induction entries generalizing acc with
  | nil => exact h
  | cons e rest ih =>
    exact ih (jsMapSet acc e.1 e.2) (nodupKeys_jsMapSet acc e.1 e.2 h)

theorem lastBinding_append {α : Type} (xs ys : List (JSStr × α)) (q : JSStr) :
    lastBinding (xs ++ ys) q =
      match lastBinding ys q with
      | some v => some v
      | none => lastBinding xs q := by
  induction xs with
  | nil =>
    simp only [List.nil_append]
    cases h : lastBinding ys q <;> simp [lastBinding, h]
  | cons e rest ih =>
    obtain ⟨k, v⟩ := e
    show (match lastBinding (rest ++ ys) q with
          | some v' => some v'
          | none => if k = q then some v else none) = _
    rw [ih]
    cases h1 : lastBinding ys q <;> cases h2 : lastBinding rest q <;>
      simp [lastBinding, h1, h2]

/-- C1 amended.  The merged id index has unique EncodedId keys, and it maps
every id to its LAST binding across the concatenated per-frame indexes: a
duplicate EncodedId appearing in two frame results is silently overwritten
by the later one, never flagged by the merge. -/
theorem mergeTreeResults_lastWins {α : Type} (treeResults : List (TreeResultM α))
    (q : JSStr) :
    (((mergeTreeResults treeResults).elements).map (fun p => p.1)).Nodup ∧
    jsMapGet (mergeTreeResults treeResults).elements q =
      lastBinding (List.flatten (treeResults.map (fun r => r.idToElement))) q := by
  constructor
  · show ((treeResults.foldl (fun acc r => setAllEntries acc r.idToElement) []).map
      (fun p => p.1)).Nodup
    have hgen : ∀ (rs : List (TreeResultM α)) (acc : List (JSStr × α)),
        (acc.map (fun p => p.1)).Nodup →
        ((rs.foldl (fun a r => setAllEntries a r.idToElement) acc).map
          (fun p => p.1)).Nodup := by
      intro rs
      induction rs with
      | nil => intro acc h; exact h
      | cons r rest ih =>
        intro acc h
        exact ih (setAllEntries acc r.idToElement)
          (nodupKeys_setAllEntries r.idToElement acc h)
    exact hgen treeResults [] (by simp)
  · show jsMapGet (treeResults.foldl (fun acc r => setAllEntries acc r.idToElement) []) q = _
    have hgen : ∀ (rs : List (TreeResultM α)) (acc : List (JSStr × α)),
        jsMapGet (rs.foldl (fun a r => setAllEntries a r.idToElement) acc) q =
          match lastBinding (List.flatten (rs.map (fun r => r.idToElement))) q with
          | some v => some v
          | none => jsMapGet acc q := by
      intro rs
      induction rs with
      | nil => intro acc; simp [lastBinding]
      | cons r rest ih =>
        intro acc
        show jsMapGet (rest.foldl (fun a r => setAllEntries a r.idToElement)
          (setAllEntries acc r.idToElement)) q = _
        rw [ih, jsMapGet_setAllEntries]
        simp only [List.map_cons, List.flatten_cons, lastBinding_append]
        cases lastBinding (List.flatten (rest.map (fun r => r.idToElement))) q <;>
          cases lastBinding r.idToElement q <;> simp
    rw [hgen treeResults []]
    cases lastBinding (List.flatten (treeResults.map (fun r => r.idToElement))) q <;>
      simp [jsMapGet]

/-! ### The accessibility tree builder and cleaner (build-tree.ts, utils.ts)

The pipeline for one frame: convert each raw node, filter (pass 1), wire
parent/child edges (pass 2), take the parentless kept nodes as roots
(pass 3) and clean recursively (pass 4).  Visual decoration (scrollable
role prefixes, bounding boxes) is off on this path: with no scrollable-id
set the conversion keeps the base role. -/

/-- A raw CDP accessibility node, with the fields the builder reads. -/
structure AXNodeM where
  role : Option JSStr
  name : Option JSStr
  nodeId : JSStr
  backendDOMNodeId : Option Nat
  parentId : Option JSStr
  childIds : List JSStr
deriving DecidableEq

/-- The converted `AccessibilityNode` (`convertAXNode`). -/
structure AccNodeM where
  role : JSStr
  name : Option JSStr
  nodeId : JSStr
  backendDOMNodeId : Option Nat
  parentId : Option JSStr
  childIds : List JSStr
deriving DecidableEq

/-- `convertAXNode` without a scrollable-id set: `role?.value ?? 'unknown'`
and a field-for-field copy. -/
def convertAXNode (n : AXNodeM) : AccNodeM :=
  { role := n.role.getD ("unknown".data)
    name := n.name
    nodeId := n.nodeId
    backendDOMNodeId := n.backendDOMNodeId
    parentId := n.parentId
    childIds := n.childIds }

/-- JS `String.prototype.trim`. -/
def jsTrim (cs : JSStr) : JSStr :=
  (((cs.dropWhile Char.isWhitespace).reverse).dropWhile Char.isWhitespace).reverse

/-- `isInteractive` from utils.ts: everything except the structural roles
`none`, `generic` and `InlineTextBox`. -/
def isInteractiveRole (role : JSStr) : Bool :=
  !(role = "none".data || role = "generic".data || role = "InlineTextBox".data)

/-- The pass-1 skip: missing node id or negative pseudo-node
(`!node.nodeId || +node.nodeId < 0`). -/
def validNodeId (n : AccNodeM) : Bool :=
  !n.nodeId.isEmpty &&
    !(match jsNumber n.nodeId with
      | some v => decide (v < 0)
      | none => false)

/-- The pass-1 keep condition: trimmed name, raw child ids, or an
interactive role. -/
def keepNode (n : AccNodeM) : Bool :=
  (match n.name with
   | some s => !(jsTrim s).isEmpty
   | none => false) ||
  !n.childIds.isEmpty || isInteractiveRole n.role

/-- The nodes surviving pass 1, in input order. -/
def keptNodes (nodes : List AXNodeM) : List AccNodeM :=
  (nodes.map convertAXNode).filter (fun n => validNodeId n && keepNode n)

/-- The EncodedId stored on a kept node (`resolveEncodedId` when a backend
id is present). -/
def nodeEncodedId (keys : List JSStr) (frameIndex : Nat) (n : AccNodeM) :
    Option JSStr :=
  match n.backendDOMNodeId with
  | some b => some (resolveEncodedId keys frameIndex b)
  | none => none

/-- A node of the hierarchical tree (`RichNode`). -/
inductive AccTreeM where
  | node (role : JSStr) (name : Option JSStr) (encodedId : Option JSStr)
      (nodeId : Option JSStr) (children : List AccTreeM)

def AccTreeM.role : AccTreeM → JSStr
  | .node r _ _ _ _ => r

def AccTreeM.name : AccTreeM → Option JSStr
  | .node _ nm _ _ _ => nm

def AccTreeM.children : AccTreeM → List AccTreeM
  | .node _ _ _ _ cs => cs

/-- Pass-2/3 wiring: the children of a kept node are the kept nodes naming
it as parent, in input order; `fuel` bounds the depth (any `fuel ≥` the
number of kept nodes reproduces the JS object graph on acyclic input). -/
def buildSubtree (keys : List JSStr) (frameIndex : Nat)
    (kept : List AccNodeM) : Nat → AccNodeM → AccTreeM
  | 0, n =>
    .node n.role n.name (nodeEncodedId keys frameIndex n) (some n.nodeId) []
  | fuel + 1, n =>
    .node n.role n.name (nodeEncodedId keys frameIndex n) (some n.nodeId)
      ((kept.filter (fun c => c.parentId = some n.nodeId)).map
        (buildSubtree keys frameIndex kept fuel))

/-- `generic` / `none`, the purely structural wrapper roles. -/
def isGenericRole (role : JSStr) : Bool :=
  role = "generic".data || role = "none".data

/-- The cleaner's negative-pseudo-node check
(`node.nodeId && +node.nodeId < 0`). -/
def negPseudoNode (nid : Option JSStr) : Bool :=
  match nid with
  | some s =>
    !s.isEmpty &&
      (match jsNumber s with
       | some v => decide (v < 0)
       | none => false)
  | none => false

/-- `removeRedundantStaticTextChildren`: a single childless `StaticText`
child whose name strictly equals the parent's name is dropped. -/
def removeRedundantStaticText (parentName : Option JSStr)
    (children : List AccTreeM) : List AccTreeM :=
  match children with
  | [c] =>
    if c.role = "StaticText".data && c.name == parentName &&
        c.children.isEmpty then
      []
    else [c]
  | _ => children

/-- The structural-role retag (step 5): a `generic`/`none` role with an
EncodedId is replaced by the (truthy) DOM tag name. -/
def retagStructural (tagNameMap : List (JSStr × JSStr)) (role : JSStr)
    (encId : Option JSStr) : JSStr :=
  if isGenericRole role then
    match encId with
    | some e =>
      match jsMapGet tagNameMap e with
      | some tag => if tag.isEmpty then role else tag
      | none => role
    | none => role
  else role

/-- The `combobox` retag (step 6): a `combobox` backed by a `select` tag
becomes `select`. -/
def retagCombobox (tagNameMap : List (JSStr × JSStr)) (role : JSStr)
    (encId : Option JSStr) : JSStr :=
  if role = "combobox".data &&
      (match encId with
       | some e => jsMapGet tagNameMap e == some ("select".data)
       | none => false) then
    "select".data
  else role

/-- Steps 5–9 of `cleanStructuralNodes` on a node whose children are
already cleaned: retag, drop the redundant `StaticText` child, prune an
emptied structural node, and rebuild the node. -/
def cleanTail (tagNameMap : List (JSStr × JSStr)) (role : JSStr)
    (name : Option JSStr) (encId nid : Option JSStr)
    (cleaned : List AccTreeM) : Option AccTreeM :=
  if (removeRedundantStaticText name cleaned).isEmpty &&
      isGenericRole (retagCombobox tagNameMap
        (retagStructural tagNameMap role encId) encId) then
    none
  else
    some (.node
      (retagCombobox tagNameMap (retagStructural tagNameMap role encId) encId)
      name encId nid (removeRedundantStaticText name cleaned))

/-- `cleanStructuralNodes`: prune negative pseudo-nodes and structural
leaves, recursively clean children, collapse a single-child structural
wrapper, prune an empty one, and finish with `cleanTail`.  `fuel` bounds
the recursion depth; any `fuel` at least the tree depth reproduces the
recursive JS function. -/
def cleanStructuralNodes (tagNameMap : List (JSStr × JSStr)) :
    Nat → AccTreeM → Option AccTreeM
  | 0, _ => none
  | fuel + 1, .node role name encId nid children =>
    if negPseudoNode nid then none
    else if children.isEmpty then
      if isGenericRole role then none
      else some (.node role name encId nid children)
    else if isGenericRole role then
      match children.filterMap (cleanStructuralNodes tagNameMap fuel) with
      | [c] => some c
      | [] => none
      | c1 :: c2 :: rest =>
        cleanTail tagNameMap role name encId nid (c1 :: c2 :: rest)
    else
      cleanTail tagNameMap role name encId nid
        (children.filterMap (cleanStructuralNodes tagNameMap fuel))

/-- The cleaned forest a frame's `buildHierarchicalTree` returns: kept
roots (pass 3) built into trees and cleaned (pass 4). -/
def buildTreeModel (nodes : List AXNodeM) (keys : List JSStr)
    (frameIndex : Nat) (tagNameMap : List (JSStr × JSStr)) : List AccTreeM :=
  let kept := keptNodes nodes
  let roots := kept.filter (fun n => n.parentId = none)
  (roots.map (buildSubtree keys frameIndex kept kept.length)).filterMap
    (cleanStructuralNodes tagNameMap (kept.length + 1))

/-- Claim C3's disjunction for one node: a non-empty (trimmed) name, at
least one child, or an interactive role in the sense of `isInteractive`. -/
def claimC3Disjunct (t : AccTreeM) : Bool :=
  (match t.name with
   | some s => !(jsTrim s).isEmpty
   | none => false) ||
  !t.children.isEmpty || isInteractiveRole t.role

/-- C3 counterexample.  An `InlineTextBox` node kept for its raw child ids
whose only child is dropped by the keep-filter survives cleaning as a bare
leaf: no name, no children, and a non-interactive role. -/
theorem cleanedTree_counterexample :
    buildTreeModel
      [{ role := some ("InlineTextBox".data), name := none, nodeId := ['1'],
         backendDOMNodeId := some 7, parentId := none, childIds := [['2']] },
       { role := some ("generic".data), name := none, nodeId := ['2'],
         backendDOMNodeId := none, parentId := some ['1'], childIds := [] }]
      [] 0 [] =
      [.node ("InlineTextBox".data) none (some (createEncodedId 0 7))
        (some ['1']) []] ∧
    claimC3Disjunct
      (.node ("InlineTextBox".data) none (some (createEncodedId 0 7))
        (some ['1']) []) = false :=
  ⟨rfl, rfl⟩

/-- Every node of a tree satisfies `p`. -/
inductive AllTree (p : AccTreeM → Prop) : AccTreeM → Prop where
  | intro (role : JSStr) (name : Option JSStr) (encId nid : Option JSStr)
      (children : List AccTreeM)
      (hroot : p (.node role name encId nid children))
      (hchildren : ∀ c ∈ children, AllTree p c) :
      AllTree p (.node role name encId nid children)

/-- The amended per-node property: at least one child, or a role other than
`generic`/`none`. -/
def cleanedNodeOk (t : AccTreeM) : Prop :=
  t.children ≠ [] ∨ isGenericRole t.role = false

theorem removeRedundantStaticText_subset (parentName : Option JSStr)
    (children : List AccTreeM) :
    ∀ c ∈ removeRedundantStaticText parentName children, c ∈ children := by
  intro c hc
  unfold removeRedundantStaticText at hc
  split at hc
  · split at hc
    · cases hc
    · simpa using hc
  · exact hc

theorem cleanTail_ok (tagNameMap : List (JSStr × JSStr)) (role : JSStr)
    (name : Option JSStr) (encId nid : Option JSStr)
    (cleaned : List AccTreeM) (t' : AccTreeM)
    (hall : ∀ c ∈ cleaned, AllTree cleanedNodeOk c)
    (h : cleanTail tagNameMap role name encId nid cleaned = some t') :
    AllTree cleanedNodeOk t' := by
  unfold cleanTail at h
  by_cases hcase :
      ((removeRedundantStaticText name cleaned).isEmpty &&
        isGenericRole (retagCombobox tagNameMap
          (retagStructural tagNameMap role encId) encId)) = true
  · rw [if_pos hcase] at h
    cases h
  · rw [if_neg hcase] at h
    injection h with h
    subst h
    refine AllTree.intro _ _ _ _ _ ?_ ?_
    · simp only [Bool.and_eq_true, not_and_or, Bool.not_eq_true] at hcase
      rcases hcase with hne | hng
      · refine Or.inl ?_
        intro hnil
        rw [show AccTreeM.children (.node
            (retagCombobox tagNameMap (retagStructural tagNameMap role encId) encId)
            name encId nid (removeRedundantStaticText name cleaned)) =
            removeRedundantStaticText name cleaned from rfl] at hnil
        rw [hnil] at hne
        simp at hne
      · exact Or.inr hng
    · intro c hc
      exact hall c (removeRedundantStaticText_subset name cleaned c hc)

/-- C3 amended.  Every node in the cleaned tree either has at least one
child or carries a role other than `generic`/`none`; in particular no
structural wrapper with zero remaining children survives cleaning. -/
theorem cleanStructuralNodes_invariant (tagNameMap : List (JSStr × JSStr))
    (fuel : Nat) (t t' : AccTreeM)
    (h : cleanStructuralNodes tagNameMap fuel t = some t') :
    AllTree cleanedNodeOk t' := by
  induction fuel generalizing t t' with
  | zero => cases h
  | succ fuel ih =>
    obtain ⟨role, name, encId, nid, children⟩ := t
    unfold cleanStructuralNodes at h
    by_cases hneg : negPseudoNode nid
    · rw [if_pos hneg] at h; cases h
    · rw [if_neg hneg] at h
      by_cases hemp : children.isEmpty
      · rw [if_pos hemp] at h
        by_cases hgen : isGenericRole role
        · rw [if_pos hgen] at h; cases h
        · rw [if_neg hgen] at h
          injection h with h
          subst h
          refine AllTree.intro _ _ _ _ _ (Or.inr (Bool.eq_false_iff.mpr hgen)) ?_
          intro c hc
          rw [List.isEmpty_iff.mp hemp] at hc
          cases hc
      · rw [if_neg hemp] at h
        have hall : ∀ c ∈ children.filterMap
            (cleanStructuralNodes tagNameMap fuel), AllTree cleanedNodeOk c := by
          intro c hc
          obtain ⟨a, _, ha⟩ := List.mem_filterMap.mp hc
          exact ih a c ha
        by_cases hgen : isGenericRole role
        · rw [if_pos hgen] at h
          cases hcl : children.filterMap (cleanStructuralNodes tagNameMap fuel) with
          | nil => rw [hcl] at h; cases h
          | cons c1 cs =>
            cases cs with
            | nil =>
              rw [hcl] at h
              injection h with h
              subst h
              exact hall _ (by rw [hcl]; exact List.mem_cons_self _ _)
            | cons c2 rest =>
              rw [hcl] at h
              exact cleanTail_ok _ _ _ _ _ _ _ (hcl ▸ hall) h
        · rw [if_neg hgen] at h
          exact cleanTail_ok _ _ _ _ _ _ _ hall h

/-- Closed instantiation of `cleanStructuralNodes_invariant`. -/
theorem cleanStructuralNodes_invariant_witness :
    AllTree cleanedNodeOk
      (.node ("button".data) (some ("Go".data)) none none []) :=
  cleanStructuralNodes_invariant [] 2
    (.node ("generic".data) none none none
      [.node ("button".data) (some ("Go".data)) none none []])
    (.node ("button".data) (some ("Go".data)) none none []) rfl

/-! ### XPath step synthesis in the identity-map builder (build-maps.ts)

One iteration of the DFS loop of `buildBackendIdMaps`: the popped node's
children get XPath steps from sibling position counters keyed by
`(nodeType, tagName)`, shadow roots get the parent path with a `//` marker,
and an iframe's content document restarts at the empty path. -/

/-- JS `toLowerCase` (the `lc` helper). -/
def lcStr (cs : JSStr) : JSStr := cs.map Char.toLower

/-- `joinStep`: append with `/` unless the base already ends in the
shadow-piercing `//` marker. -/
def joinStep (base step : JSStr) : JSStr :=
  if ("//".data).isSuffixOf base then base ++ step else base ++ '/' :: step

/-- One child's XPath step at sibling position `idx` of its counter key:
`text()[n]`, `comment()[n]`, `tag[n]`, or the namespaced
`*[name()='tag'][n]` form. -/
def segmentFor (tag : JSStr) (nodeType idx : Nat) : JSStr :=
  if nodeType = 3 then "text()[".data ++ natToDec idx ++ "]".data
  else if nodeType = 8 then "comment()[".data ++ natToDec idx ++ "]".data
  else if tag.contains ':' then
    "*[name()=\x27".data ++ tag ++ "\x27][".data ++ natToDec idx ++ "]".data
  else tag ++ "[".data ++ natToDec idx ++ "]".data

/-- Bump the sibling counter for `key`, returning the new count
(`counter[key] = (counter[key] ?? 0) + 1`). -/
def ctrBump (m : List ((Nat × JSStr) × Nat)) (key : Nat × JSStr) :
    Nat × List ((Nat × JSStr) × Nat) :=
  match m with
  | [] => (1, [(key, 1)])
  | (k', c) :: rest =>
    if k' = key then (c + 1, (k', c + 1) :: rest)
    else
      match ctrBump rest key with
      | (idx, rest') => (idx, (k', c) :: rest')

/-- Current count of `key` in the sibling counter. -/
def ctrGet (m : List ((Nat × JSStr) × Nat)) (key : Nat × JSStr) : Nat :=
  match m with
  | [] => 0
  | (k', c) :: rest => if k' = key then c else ctrGet rest key

/-- The segment loop over the children, threading the counter record. -/
def childSegsAux : List (Nat × JSStr) → List ((Nat × JSStr) × Nat) → List JSStr
  | [], _ => []
  | child :: rest, ctr =>
    match ctrBump ctr (child.1, lcStr child.2) with
    | (idx, ctr') => segmentFor (lcStr child.2) child.1 idx :: childSegsAux rest ctr'

/-- XPath steps for a popped node's children, from a fresh counter. -/
def childSegments (kids : List (Nat × JSStr)) : List JSStr :=
  childSegsAux kids []

/-- How many earlier siblings share the counter key `(nodeType, tag)`. -/
def keyCountIn (kids : List (Nat × JSStr)) (key : Nat × JSStr) : Nat :=
  (kids.filter (fun c => decide (c.1 = key.1) && decide (lcStr c.2 = key.2))).length

/-- A DOM node as fetched by `DOM.getDocument` with `pierce: true`. -/
inductive DOMNodeM where
  | mk (backendNodeId : Option Nat) (nodeName : JSStr) (nodeType : Nat)
      (children : List DOMNodeM) (shadowRoots : List DOMNodeM)
      (contentDocument : Option DOMNodeM)

def DOMNodeM.nodeName : DOMNodeM → JSStr
  | .mk _ nm _ _ _ _ => nm

def DOMNodeM.nodeType : DOMNodeM → Nat
  | .mk _ _ ty _ _ _ => ty

def DOMNodeM.children : DOMNodeM → List DOMNodeM
  | .mk _ _ _ cs _ _ => cs

def DOMNodeM.shadowRoots : DOMNodeM → List DOMNodeM
  | .mk _ _ _ _ sr _ => sr

def DOMNodeM.contentDocument : DOMNodeM → Option DOMNodeM
  | .mk _ _ _ _ _ cd => cd

/-- The stack entries one loop iteration pushes for a popped `(node, path)`:
the iframe content document restarting at `""`, the shadow roots at
`path ++ "//"`, and the children (in reverse, so traversal stays
left-to-right) at `joinStep path segment`. -/
def nodePushes (n : DOMNodeM) (path : JSStr) : List (DOMNodeM × JSStr) :=
  (match n.contentDocument with
   | some doc =>
     if !n.nodeName.isEmpty && lcStr n.nodeName = "iframe".data then [(doc, [])]
     else []
   | none => []) ++
  (n.shadowRoots.map (fun r => (r, path ++ "//".data))) ++
  ((n.children.zip (childSegments
      (n.children.map (fun k => (k.nodeType, k.nodeName))))).reverse.map
    (fun p => (p.1, joinStep path p.2)))

/-- C6 counterexample.  A namespaced element child does not get the claimed
`tag[n]` step; it gets the `*[name()='tag'][n]` form. -/
theorem childSegments_namespaced_counterexample :
    childSegments [(1, "svg:path".data)] =
      ["*[name()=\x27svg:path\x27][1]".data] ∧
    childSegments [(1, "svg:path".data)] ≠ ["svg:path[1]".data] :=
  ⟨rfl, by decide⟩

theorem ctrBump_fst (m : List ((Nat × JSStr) × Nat)) (key : Nat × JSStr) :
    (ctrBump m key).1 = ctrGet m key + 1 := by
  induction m with
  | nil => rfl
  | cons e rest ih =>
    obtain ⟨k', c⟩ := e
    by_cases hk : k' = key
    · simp [ctrBump, ctrGet, hk]
    · simp only [ctrBump, ctrGet, if_neg hk]
      rw [← ih]

theorem ctrGet_bump (m : List ((Nat × JSStr) × Nat)) (key q : Nat × JSStr) :
    ctrGet (ctrBump m key).2 q =
      if key = q then ctrGet m key + 1 else ctrGet m q := by
  induction m with
  | nil =>
    by_cases hq : key = q <;> simp [ctrBump, ctrGet, hq]
  | cons e rest ih =>
    obtain ⟨k', c⟩ := e
    by_cases hk : k' = key
    · subst hk
      by_cases hq : k' = q
      · subst hq; simp [ctrBump, ctrGet]
      · have : ¬(k' = q) := hq
        simp [ctrBump, ctrGet, this, fun (h : k' = q) => hq h]
    · simp only [ctrBump, if_neg hk]
      by_cases hq : k' = q
      · subst hq
        have hkq : ¬(key = k') := fun h => hk h.symm
        simp [ctrGet, hkq]
      · simp [ctrGet, hq, hk, ih]

theorem childSegsAux_spec (kids : List (Nat × JSStr)) :
    ∀ (ctr : List ((Nat × JSStr) × Nat)) (j : Nat) (ty : Nat) (nm : JSStr),
      kids[j]? = some (ty, nm) →
      (childSegsAux kids ctr)[j]? =
        some (segmentFor (lcStr nm) ty
          (ctrGet ctr (ty, lcStr nm) + keyCountIn (kids.take j) (ty, lcStr nm) + 1)) := by
  induction kids with
  | nil => intro ctr j ty nm hj; simp at hj
  | cons child rest ih =>
    intro ctr j ty nm hj
    obtain ⟨cty, cnm⟩ := child
    cases j with
    | zero =>
      simp only [List.getElem?_cons_zero, Option.some.injEq] at hj
      obtain ⟨rfl, rfl⟩ := (Prod.mk.injEq _ _ _ _).mp hj.symm
      show (childSegsAux ((ty, nm) :: rest) ctr)[0]? = _
      simp only [childSegsAux]
      cases hb : ctrBump ctr (ty, lcStr nm) with
      | mk idx ctr' =>
        have : idx = ctrGet ctr (ty, lcStr nm) + 1 := by
          have := ctrBump_fst ctr (ty, lcStr nm)
          rw [hb] at this
          exact this
        simp [this, keyCountIn]
    | succ j' =>
      simp only [List.getElem?_cons_succ] at hj
      show (childSegsAux ((cty, cnm) :: rest) ctr)[j' + 1]? = _
      simp only [childSegsAux]
      cases hb : ctrBump ctr (cty, lcStr cnm) with
      | mk idx ctr' =>
        simp only [List.getElem?_cons_succ]
        rw [ih ctr' j' ty nm hj]
        congr 2
        have hget := ctrGet_bump ctr (cty, lcStr cnm) (ty, lcStr nm)
        rw [hb] at hget
        by_cases hkey : (cty, lcStr cnm) = (ty, lcStr nm)
        · rw [hget, if_pos hkey]
          simp only [List.take_succ_cons, keyCountIn, List.filter_cons]
          rw [if_pos (by
            obtain ⟨h1, h2⟩ := Prod.mk.injEq _ _ _ _ |>.mp hkey
            simp [h1, h2])]
          simp only [List.length_cons]
          obtain ⟨h1, h2⟩ := Prod.mk.injEq _ _ _ _ |>.mp hkey
          rw [h1, h2]
          omega
        · rw [hget, if_neg hkey]
          simp only [List.take_succ_cons, keyCountIn, List.filter_cons]
          rw [if_neg (by
            intro hcontra
            simp only [Bool.and_eq_true, decide_eq_true_eq] at hcontra
            exact hkey (by rw [hcontra.1, hcontra.2]))]

/-- C6 amended.  One DFS iteration of `buildBackendIdMaps`: the `j`-th
child's step is synthesized by `segmentFor` at an index counting earlier
siblings with the same `(nodeType, tagName)` key (so `tag[n]`, `text()[n]`
and `comment()[n]` are indexed independently, with namespaced elements
using the `*[name()='tag'][n]` form); shadow roots are pushed with the
parent path plus `//`; `joinStep` pierces a `//`-terminated base without a
`/`; children are pushed at `joinStep path segment`. -/
theorem buildBackendIdMaps_step_spec
    (kids : List (Nat × JSStr)) (j ty : Nat) (nm : JSStr)
    (hj : kids[j]? = some (ty, nm))
    (n : DOMNodeM) (path : JSStr) :
    (childSegments kids)[j]? =
      some (segmentFor (lcStr nm) ty
        (keyCountIn (kids.take j) (ty, lcStr nm) + 1)) ∧
    (∀ r ∈ n.shadowRoots, (r, path ++ "//".data) ∈ nodePushes n path) ∧
    (∀ s : JSStr, joinStep (path ++ "//".data) s = path ++ "//".data ++ s) ∧
    (("//".data).isSuffixOf path = false →
      ∀ s : JSStr, joinStep path s = path ++ '/' :: s) ∧
    (∀ (i : Nat) (kid : DOMNodeM) (seg : JSStr),
      (n.children)[i]? = some kid →
      (childSegments (n.children.map (fun k => (k.nodeType, k.nodeName))))[i]? =
        some seg →
      (kid, joinStep path seg) ∈ nodePushes n path) := by
  refine ⟨?_, ?_, ?_, ?_, ?_⟩
  · have := childSegsAux_spec kids [] j ty nm hj
    simpa [childSegments, ctrGet] using this
  · intro r hr
    unfold nodePushes
    refine List.mem_append.mpr (Or.inl (List.mem_append.mpr (Or.inr ?_)))
    exact List.mem_map.mpr ⟨r, hr, rfl⟩
  · intro s
    unfold joinStep
    rw [if_pos]
    rw [List.isSuffixOf_iff_suffix]
    exact List.suffix_append path ("//".data)
  · intro hsuf s
    unfold joinStep
    rw [hsuf]
    simp
  · intro i kid seg hkid hseg
    unfold nodePushes
    refine List.mem_append.mpr (Or.inr ?_)
    refine List.mem_map.mpr ⟨(kid, seg), ?_, rfl⟩
    rw [List.mem_reverse]
    have hzip : ∀ (l₁ : List DOMNodeM) (l₂ : List JSStr) (i : Nat) (a : DOMNodeM)
        (b : JSStr), l₁[i]? = some a → l₂[i]? = some b → (a, b) ∈ l₁.zip l₂ := by
      intro l₁
      induction l₁ with
      | nil => intro l₂ i a b ha; simp at ha
      | cons x xs ih =>
        intro l₂ i a b ha hb
        cases l₂ with
        | nil => simp at hb
        | cons y ys =>
          cases i with
          | zero =>
            simp only [List.getElem?_cons_zero, Option.some.injEq] at ha hb
            subst ha; subst hb
            exact List.mem_cons_self _ _
          | succ i' =>
            simp only [List.getElem?_cons_succ] at ha hb
            exact List.mem_cons_of_mem _ (ih ys i' a b ha hb)
    exact hzip _ _ i kid seg hkid hseg

/-- Closed instantiation of `buildBackendIdMaps_step_spec`: two `div`
elements and a text node between them get `div[1]`, `text()[1]`, `div[2]`. -/
theorem buildBackendIdMaps_step_spec_witness :
    (childSegments [(1, "div".data), (3, "#text".data), (1, "div".data)])[2]? =
      some ("div[2]".data) ∧
    (childSegments [(1, "div".data), (3, "#text".data), (1, "div".data)])[1]? =
      some ("text()[1]".data) := by
  constructor
  · have h := (buildBackendIdMaps_step_spec
      [(1, "div".data), (3, "#text".data), (1, "div".data)] 2 1 ("div".data)
      (by decide) (.mk none [] 0 [] [] none) []).1
    rw [h]
    rfl
  · have h := (buildBackendIdMaps_step_spec
      [(1, "div".data), (3, "#text".data), (1, "div".data)] 1 3 ("#text".data)
      (by decide) (.mk none [] 0 [] [] none) []).1
    rw [h]
    rfl

/-! ### The element locator (element-locator.ts)

`getElementLocator` validates the raw id against `ID_PATTERN`
(`toEncodedId` throws a plain `Error` on mismatch), looks up the XPath —
the `if (!rawXpath) throw` guard is falsy for a missing key and for an
empty-string value alike — trims a trailing text-node segment, and
resolves a frame handle; the wait for the frame's `domcontentloaded` is
wrapped in a try/catch whose timeout is discarded.  The browser driver is abstracted: a frame handle is an
opaque token, and the lazy `resolveFrameByXPath` walk is an oracle
outcome. -/

/-- The reversed characters of the suffix `"/text()"`. -/
def revTextPat : JSStr := ")(txet/".data

/-- After the digits of a reversed `[digits]` group: expect `[` and return
what precedes it (reversed back). -/
def bracketTail : JSStr → Option JSStr
  | [] => none
  | d :: rem => if d = '[' then some rem.reverse else none

/-- `stripBracketDigits` on the reversed characters. -/
def stripRev : JSStr → Option JSStr
  | [] => none
  | c :: rest =>
    if c = ']' then
      if (rest.takeWhile Char.isDigit).isEmpty then none
      else bracketTail (rest.dropWhile Char.isDigit)
    else none

/-- Strip a trailing `[digits]` group, returning what precedes it. -/
def stripBracketDigits (cs : JSStr) : Option JSStr := stripRev cs.reverse

/-- The bracketed-suffix half of the trim: when a `[n]` group was stripped,
drop a preceding case-insensitive `/text()`; otherwise leave the xpath. -/
def trimViaBracket (xpath : JSStr) : Option JSStr → JSStr
  | some pre =>
    if (lcStr pre).reverse.take 7 = revTextPat then pre.take (pre.length - 7)
    else xpath
  | none => xpath

/-- The replace of `/\/text\(\)(\[\d+\])?$/iu` with `""`: drop a trailing
`/text()` or `/text()[n]` segment (case-insensitively). -/
def trimTrailingTextNode (xpath : JSStr) : JSStr :=
  if (lcStr xpath).reverse.take 7 = revTextPat then
    xpath.take (xpath.length - 7)
  else trimViaBracket xpath (stripBracketDigits xpath)

theorem take_length_append (l₁ l₂ : List Char) (n : Nat) (h : l₁.length = n) :
    (l₁ ++ l₂).take n = l₁ := by
  subst h
  induction l₁ with
  | nil => rfl
  | cons c cs ih => simp [ih]

/-- `parseInt(frameIndexStr, 10)` of the part before the first dash. -/
def firstComponentInt (cs : JSStr) : Option Int :=
  match splitDash cs with
  | [] => none
  | a :: _ => parseIntJS a

/-- The `FrameInfo` fields the locator reads. -/
structure IframeInfoM where
  xpath : JSStr
  parentFrameIndex : Option Int
  playwrightFrame : Option Nat

/-- `frameMap.get(frameIndex)` on the number-keyed map. -/
def frameMapGet (m : List (Nat × IframeInfoM)) (i : Int) : Option IframeInfoM :=
  match m with
  | [] => none
  | (k, v) :: rest => if (k : Int) = i then some v else frameMapGet rest i

/-- The locator's typed failures.  The first is the plain `Error` thrown by
`toEncodedId`; the other three are `HyperagentError`s with status 404. -/
inductive LocErr where
  | invalidFormat
  | elementNotFound
  | frameNotFound
  | frameResolutionFailed (frameIndex : Int)
deriving DecidableEq

/-- `getElementLocator`.  The result pairs the resolved frame handle
(`none` meaning the main page) with the trimmed XPath; `waitTimedOut`
records whether the bounded frame-load wait timed out, which the source
catches and ignores.  `!rawXpath` holds both when the key is absent
(`undefined`) and when the stored XPath is the empty string. -/
def getElementLocator (elementId : JSStr) (xpathMap : List (JSStr × JSStr))
    (frameMap : Option (List (Nat × IframeInfoM)))
    (lazyResolve : Option Nat) (waitTimedOut : Bool) :
    Except LocErr (Option Nat × JSStr) :=
  if !testIdPattern elementId then .error .invalidFormat
  else
    match jsMapGet xpathMap elementId with
    | none => .error .elementNotFound
    | some rawXpath =>
      if rawXpath.isEmpty then .error .elementNotFound
      else
      match firstComponentInt elementId with
      | none => .error .invalidFormat
      | some frameIndex =>
        if frameIndex = 0 then .ok (none, trimTrailingTextNode rawXpath)
        else
          match frameMap with
          | none => .error .frameNotFound
          | some fm =>
            match frameMapGet fm frameIndex with
            | none => .error .frameNotFound
            | some info =>
              match (match info.playwrightFrame with
                     | some fr => some fr
                     | none => lazyResolve) with
              | none => .error (.frameResolutionFailed frameIndex)
              | some fr => .ok (some fr, trimTrailingTextNode rawXpath)

/-- C7 counterexample.  An id failing `ID_PATTERN` makes the locator throw
a fourth error — the format-validation `Error` from `toEncodedId` — that is
none of the claim's three typed cases, and no locator is returned. -/
theorem getElementLocator_counterexample :
    getElementLocator ("abc".data) [(createEncodedId 0 1, "/html[1]".data)]
        none none false = .error .invalidFormat ∧
    (LocErr.invalidFormat ≠ .elementNotFound ∧
     LocErr.invalidFormat ≠ .frameNotFound ∧
     ∀ i : Int, LocErr.invalidFormat ≠ .frameResolutionFailed i) := by
  refine ⟨rfl, by decide, by decide, ?_⟩
  intro i h
  cases h

theorem lcStr_append (a b : JSStr) : lcStr (a ++ b) = lcStr a ++ lcStr b :=
  List.map_append _ a b

theorem trim_plain_text_suffix (s : JSStr) :
    trimTrailingTextNode (s ++ "/text()".data) = s := by
  unfold trimTrailingTextNode
  rw [if_pos]
  · rw [List.length_append]
    show (s ++ "/text()".data).take (s.length + 7 - 7) = s
    rw [Nat.add_sub_cancel]
    exact take_length_append _ _ _ rfl
  · rw [lcStr_append, List.reverse_append]
    show ((lcStr ("/text()".data)).reverse ++ (lcStr s).reverse).take 7 = revTextPat
    exact take_length_append _ _ _ rfl

theorem takeWhile_digits_front (ds rest : JSStr) (hds : ∀ c ∈ ds, c.isDigit = true)
    (hrest : rest.headI.isDigit = false ∨ rest = []) :
    (ds ++ rest).takeWhile Char.isDigit = ds ++ rest.takeWhile Char.isDigit := by
  induction ds with
  | nil => simp
  | cons c cs ih =>
    have hc := hds c (List.mem_cons_self _ _)
    simp only [List.cons_append, List.takeWhile_cons, hc, if_true]
    rw [ih (fun d hd => hds d (List.mem_cons_of_mem _ hd))]

theorem trim_indexed_text_suffix (s : JSStr) (n : Nat) :
    trimTrailingTextNode
      (s ++ "/text()[".data ++ natToDec n ++ "]".data) = s := by
  have hassoc : s ++ "/text()[".data ++ natToDec n ++ "]".data =
      (s ++ "/text()".data) ++ '[' :: (natToDec n ++ [']']) := by
    simp
  unfold trimTrailingTextNode
  rw [if_neg]
  · have hstrip : stripBracketDigits
        (s ++ "/text()[".data ++ natToDec n ++ "]".data) =
        some (s ++ "/text()".data) := by
      unfold stripBracketDigits
      rw [hassoc]
      rw [show ((s ++ "/text()".data) ++ '[' :: (natToDec n ++ [']'])).reverse =
        ']' :: ((natToDec n).reverse ++ '[' :: (s ++ "/text()".data).reverse) by
          simp]
      have htw : ((natToDec n).reverse ++ '[' :: (s ++ "/text()".data).reverse).takeWhile
          Char.isDigit = (natToDec n).reverse := by
        rw [takeWhile_digits_front _ _
          (fun c hc => natToDec_all_digits n c (List.mem_reverse.mp hc))
          (Or.inl (by simp))]
        simp
      have hdw : ((natToDec n).reverse ++ '[' :: (s ++ "/text()".data).reverse).dropWhile
          Char.isDigit = '[' :: (s ++ "/text()".data).reverse := by
        have h1 : ∀ c ∈ (natToDec n).reverse, Char.isDigit c = true :=
          fun c hc => natToDec_all_digits n c (List.mem_reverse.mp hc)
        rw [List.dropWhile_append]
        rw [List.dropWhile_eq_nil_iff.mpr h1]
        simp [natToDec_ne_nil n, List.dropWhile_cons]
      simp only [stripRev, eq_self_iff_true, if_true]
      rw [htw, hdw]
      rw [if_neg (show ¬(((natToDec n).reverse).isEmpty = true) by
        simp [natToDec_ne_nil n])]
      simp only [bracketTail, eq_self_iff_true, if_true, List.reverse_reverse]
    rw [hstrip]
    simp only [trimViaBracket]
    rw [if_pos]
    · rw [List.length_append]
      show ((s ++ "/text()".data)).take (s.length + 7 - 7) = s
      rw [Nat.add_sub_cancel]
      exact take_length_append _ _ _ rfl
    · rw [lcStr_append, List.reverse_append]
      show ((lcStr ("/text()".data)).reverse ++ (lcStr s).reverse).take 7 = revTextPat
      exact take_length_append _ _ _ rfl
  · rw [hassoc]
    intro hcontra
    rw [lcStr_append, List.reverse_append] at hcontra
    have : (lcStr ('[' :: (natToDec n ++ [']']))).reverse =
        ']' :: ((lcStr (natToDec n)).reverse ++ ['[']) := by
      simp [lcStr]
    rw [this] at hcontra
    have hhead := congrArg (fun l => l.headI) hcontra
    simp [revTextPat] at hhead

/-- C7 amended.  The locator raises a typed error in exactly four cases —
invalid id format (the `toEncodedId` validation `Error`), an XPath missing
from the map or stored as the empty string (the falsy `!rawXpath` check),
frame index missing from the frame map, and no live handle after the lazy
resolution walk — and otherwise returns a locator on the XPath with a
trailing `/text()` or `/text()[n]` segment trimmed; the outcome never
depends on whether the frame-load wait timed out. -/
theorem getElementLocator_spec (f b : Nat) (xpathMap : List (JSStr × JSStr))
    (frameMap : List (Nat × IframeInfoM)) (lazyResolve : Option Nat)
    (wt : Bool) :
    (∀ i : JSStr, testIdPattern i = false →
      getElementLocator i xpathMap (some frameMap) lazyResolve wt =
        .error .invalidFormat) ∧
    (jsMapGet xpathMap (createEncodedId f b) = none ∨
      jsMapGet xpathMap (createEncodedId f b) = some [] →
      getElementLocator (createEncodedId f b) xpathMap (some frameMap)
        lazyResolve wt = .error .elementNotFound) ∧
    (∀ raw, jsMapGet xpathMap (createEncodedId 0 b) = some raw → raw ≠ [] →
      getElementLocator (createEncodedId 0 b) xpathMap (some frameMap)
        lazyResolve wt = .ok (none, trimTrailingTextNode raw)) ∧
    (∀ raw, jsMapGet xpathMap (createEncodedId f b) = some raw → raw ≠ [] →
      f ≠ 0 →
      frameMapGet frameMap (f : Int) = none →
      getElementLocator (createEncodedId f b) xpathMap (some frameMap)
        lazyResolve wt = .error .frameNotFound) ∧
    (∀ raw info, jsMapGet xpathMap (createEncodedId f b) = some raw →
      raw ≠ [] → f ≠ 0 →
      frameMapGet frameMap (f : Int) = some info →
      info.playwrightFrame = none → lazyResolve = none →
      getElementLocator (createEncodedId f b) xpathMap (some frameMap)
        lazyResolve wt = .error (.frameResolutionFailed (f : Int))) ∧
    (∀ raw info fr, jsMapGet xpathMap (createEncodedId f b) = some raw →
      raw ≠ [] → f ≠ 0 →
      frameMapGet frameMap (f : Int) = some info →
      (match info.playwrightFrame with
       | some x => some x
       | none => lazyResolve) = some fr →
      getElementLocator (createEncodedId f b) xpathMap (some frameMap)
        lazyResolve wt = .ok (some fr, trimTrailingTextNode raw)) ∧
    (∀ s, trimTrailingTextNode (s ++ "/text()".data) = s ∧
      trimTrailingTextNode (s ++ "/text()[".data ++ natToDec b ++ "]".data) = s) ∧
    (∀ i xm fm lr, getElementLocator i xm fm lr true =
      getElementLocator i xm fm lr false) := by
  have hfirst : firstComponentInt (createEncodedId f b) = some (f : Int) := by
    unfold firstComponentInt
    rw [splitDash_createEncodedId]
    exact parseIntJS_natToDec f
  have hpat := testIdPattern_createEncodedId f b
  refine ⟨?_, ?_, ?_, ?_, ?_, ?_, ?_, ?_⟩
  · intro i hi
    unfold getElementLocator
    rw [hi]
    rfl
  · intro hcase
    rcases hcase with hnone | hempty
    · unfold getElementLocator
      rw [hpat, hnone]
      rfl
    · unfold getElementLocator
      rw [hpat, hempty]
      rfl
  · intro raw hraw hne
    have hie : raw.isEmpty = false := by
      cases raw with
      | nil => exact absurd rfl hne
      | cons c cs => rfl
    have h0 : firstComponentInt (createEncodedId 0 b) = some ((0 : Nat) : Int) := by
      unfold firstComponentInt
      rw [splitDash_createEncodedId]
      exact parseIntJS_natToDec 0
    simp [getElementLocator, testIdPattern_createEncodedId 0 b, hraw, hie, h0]
  · intro raw hraw hne hf hfm
    have hie : raw.isEmpty = false := by
      cases raw with
      | nil => exact absurd rfl hne
      | cons c cs => rfl
    simp [getElementLocator, hpat, hraw, hie, hfirst, hfm, Nat.cast_eq_zero, hf]
  · intro raw info hraw hne hf hfm hpw hlr
    have hie : raw.isEmpty = false := by
      cases raw with
      | nil => exact absurd rfl hne
      | cons c cs => rfl
    simp [getElementLocator, hpat, hraw, hie, hfirst, hfm, hpw, hlr,
      Nat.cast_eq_zero, hf]
  · intro raw info fr hraw hne hf hfm hres
    have hie : raw.isEmpty = false := by
      cases raw with
      | nil => exact absurd rfl hne
      | cons c cs => rfl
    simp [getElementLocator, hpat, hraw, hie, hfirst, hfm, hres,
      Nat.cast_eq_zero, hf]
  · intro s
    exact ⟨trim_plain_text_suffix s, trim_indexed_text_suffix s b⟩
  · intro i xm fm lr
    rfl

/-- Closed instantiation of `getElementLocator_spec`: the happy path on a
nonempty XPath, and the element-not-found error on an id whose stored XPath
is the empty string (a document root's path). -/
theorem getElementLocator_spec_witness :
    (getElementLocator (createEncodedId 0 5)
        [(createEncodedId 0 5, "/html[1]/body[1]/text()[2]".data)]
        (some []) none false =
      .ok (none, "/html[1]/body[1]".data)) ∧
    (getElementLocator (createEncodedId 0 7) [(createEncodedId 0 7, [])]
        (some []) none false = .error .elementNotFound) := by
  constructor
  · have h := (getElementLocator_spec 0 5
      [(createEncodedId 0 5, "/html[1]/body[1]/text()[2]".data)] [] none false).2.2.1
      ("/html[1]/body[1]/text()[2]".data) rfl (by decide)
    rw [h]
    rfl
  · exact (getElementLocator_spec 0 7 [(createEncodedId 0 7, [])]
      [] none false).2.1 (Or.inr rfl)

/-! ### Scroll-to-percentage (the `scrollTo` case of `executePlaywrightMethod`)

The in-page function parses the percentage, clamps it to `[0, 100]`, and
either scrolls the window, scrolls a scrollable element's interior by
`(content height − viewport/client height) × pct/100`, or falls back to
`scrollIntoView` for a non-scrollable target.  Pixel quantities are modelled
as rationals. -/

/-- JS `s.replace(c, "")` for a one-character pattern: remove the first
occurrence. -/
def removeFirstChar (c : Char) : JSStr → JSStr
  | [] => []
  | x :: xs => if x = c then xs else x :: removeFirstChar c xs

/-- JS `parseFloat` for the simple decimal forms that occur here: optional
sign, integer digits, optional fraction; `none` models `NaN`.  Trailing
junk is ignored; exponents do not occur in percentage arguments. -/
def parseFloatBody (sign : ℚ) (body : JSStr) : Option ℚ :=
  match body.dropWhile Char.isDigit with
  | [] =>
    if (body.takeWhile Char.isDigit).isEmpty then none
    else some (sign * (parseDecDigits (body.takeWhile Char.isDigit) : ℚ))
  | a :: rest2 =>
    if a = '.' then
      if (body.takeWhile Char.isDigit).isEmpty &&
          (rest2.takeWhile Char.isDigit).isEmpty then none
      else
        some (sign * ((parseDecDigits (body.takeWhile Char.isDigit) : ℚ) +
          (parseDecDigits (rest2.takeWhile Char.isDigit) : ℚ) /
            10 ^ (rest2.takeWhile Char.isDigit).length))
    else
      if (body.takeWhile Char.isDigit).isEmpty then none
      else some (sign * (parseDecDigits (body.takeWhile Char.isDigit) : ℚ))

def parseFloatJS (cs : JSStr) : Option ℚ :=
  match cs with
  | [] => none
  | c :: rest =>
    if c = '-' then parseFloatBody (-1) rest
    else if c = '+' then parseFloatBody 1 rest
    else parseFloatBody 1 (c :: rest)

theorem parseFloatBody_digits (s : ℚ) (ds : JSStr) (hne : ds ≠ [])
    (hdig : ∀ c ∈ ds, c.isDigit = true) :
    parseFloatBody s ds = some (s * (parseDecDigits ds : ℚ)) := by
  have hdw : ds.dropWhile Char.isDigit = [] := List.dropWhile_eq_nil_iff.mpr hdig
  have htw : ds.takeWhile Char.isDigit = ds := List.takeWhile_eq_self_iff.mpr hdig
  unfold parseFloatBody
  rw [hdw]
  rw [htw]
  rw [if_neg (by simpa using hne)]

theorem parseFloatJS_digits (ds : JSStr) (hne : ds ≠ [])
    (hdig : ∀ c ∈ ds, c.isDigit = true) :
    parseFloatJS ds = some ((parseDecDigits ds : ℚ)) := by
  match hm : ds with
  | [] => exact absurd rfl hne
  | c :: rest =>
    have hc : c.isDigit = true := hdig c (List.mem_cons_self _ _)
    have hcm : ¬(c = '-') := by rintro rfl; exact absurd hc (by decide)
    have hcp : ¬(c = '+') := by rintro rfl; exact absurd hc (by decide)
    show (if c = '-' then parseFloatBody (-1) rest
      else if c = '+' then parseFloatBody 1 rest
      else parseFloatBody 1 (c :: rest)) = some ((parseDecDigits (c :: rest) : ℚ))
    rw [if_neg hcm, if_neg hcp]
    rw [parseFloatBody_digits 1 (c :: rest) (by simp) hdig]
    rw [one_mul]

theorem parseFloatJS_neg_digits (ds : JSStr) (hne : ds ≠ [])
    (hdig : ∀ c ∈ ds, c.isDigit = true) :
    parseFloatJS ('-' :: ds) = some (-(parseDecDigits ds : ℚ)) := by
  show (if '-' = '-' then parseFloatBody (-1) ds
    else if '-' = '+' then parseFloatBody 1 ds
    else parseFloatBody 1 ('-' :: ds)) = some (-(parseDecDigits ds : ℚ))
  rw [if_pos rfl]
  rw [parseFloatBody_digits (-1) ds hne hdig]
  rw [neg_one_mul]

/-- `Math.min` on rationals. -/
def jsMin (a b : ℚ) : ℚ := if a ≤ b then a else b

/-- `Math.max` on rationals. -/
def jsMax (a b : ℚ) : ℚ := if a ≤ b then b else a

/-- `parsePercent`: trim, strip the first `%`, parse, map `NaN` to `0`, and
clamp with `Math.max(0, Math.min(num, 100))`. -/
def parsePercent (val : JSStr) : ℚ :=
  match parseFloatJS (removeFirstChar '%' (jsTrim val)) with
  | none => 0
  | some num => jsMax 0 (jsMin num 100)

/-- `(args[0] || "50%").toString()`: an absent or empty argument defaults
to `"50%"`. -/
def scrollArgOf (arg : Option JSStr) : JSStr :=
  match arg with
  | some s => if s.isEmpty then "50%".data else s
  | none => "50%".data

/-- What the `scrollTo` evaluation does to the page. -/
inductive ScrollOutcome where
  | windowScroll (top : ℚ)
  | elementScroll (top : ℚ)
  | scrollIntoView (block : JSStr)
deriving DecidableEq

/-- The `scrollTo` in-page branch: `contentHeight` is
`document.body.scrollHeight` / `element.scrollHeight` and
`viewportHeight` is `window.innerHeight` / `element.clientHeight`. -/
def scrollToAction (tagIsHtml : Bool) (contentHeight viewportHeight : ℚ)
    (yArg : JSStr) : ScrollOutcome :=
  if tagIsHtml then
    .windowScroll ((contentHeight - viewportHeight) * (parsePercent yArg / 100))
  else if contentHeight > viewportHeight then
    .elementScroll ((contentHeight - viewportHeight) * (parsePercent yArg / 100))
  else
    .scrollIntoView
      (if parsePercent yArg < 30 then "start".data
       else if parsePercent yArg > 70 then "end".data
       else "center".data)

/-- C8.  The percentage is clamped to `[0,100]` (with `-10 ↦ 0` and
`150 ↦ 100`), the scroll target is `(content − viewport/client) × pct/100`
for the window and for a scrollable element, and a non-scrollable element
falls back to `scrollIntoView`. -/
theorem scrollToPercentage_spec (contentHeight viewportHeight : ℚ)
    (yArg : JSStr) :
    (0 ≤ parsePercent yArg ∧ parsePercent yArg ≤ 100) ∧
    (parsePercent ("-10".data) = 0 ∧ parsePercent ("150".data) = 100) ∧
    scrollToAction true contentHeight viewportHeight yArg =
      .windowScroll ((contentHeight - viewportHeight) * (parsePercent yArg / 100)) ∧
    (contentHeight > viewportHeight →
      scrollToAction false contentHeight viewportHeight yArg =
        .elementScroll
          ((contentHeight - viewportHeight) * (parsePercent yArg / 100))) ∧
    (¬contentHeight > viewportHeight →
      ∃ block, scrollToAction false contentHeight viewportHeight yArg =
        .scrollIntoView block) := by
  refine ⟨?_, ⟨?_, ?_⟩, ?_, ?_, ?_⟩
  · unfold parsePercent
    cases parseFloatJS (removeFirstChar '%' (jsTrim yArg)) with
    | none => norm_num
    | some num =>
      show 0 ≤ jsMax 0 (jsMin num 100) ∧ jsMax 0 (jsMin num 100) ≤ 100
      refine ⟨?_, ?_⟩ <;> (unfold jsMax jsMin; split_ifs <;> linarith)
  · show parsePercent ("-10".data) = 0
    have hpf : parseFloatJS (removeFirstChar '%' (jsTrim ("-10".data))) =
        some (-10 : ℚ) := by
      rw [show removeFirstChar '%' (jsTrim ("-10".data)) = '-' :: "10".data from rfl]
      rw [parseFloatJS_neg_digits _ (by decide) (by decide)]
      norm_num [show parseDecDigits ("10".data) = 10 from rfl]
    unfold parsePercent
    rw [hpf]
    show jsMax 0 (jsMin (-10 : ℚ) 100) = 0
    unfold jsMin jsMax
    rw [if_pos (by norm_num : (-10 : ℚ) ≤ 100),
      if_neg (by norm_num : ¬(0 : ℚ) ≤ -10)]
  · show parsePercent ("150".data) = 100
    have hpf : parseFloatJS (removeFirstChar '%' (jsTrim ("150".data))) =
        some (150 : ℚ) := by
      rw [show removeFirstChar '%' (jsTrim ("150".data)) = "150".data from rfl]
      rw [parseFloatJS_digits _ (by decide) (by decide)]
      norm_num [show parseDecDigits ("150".data) = 150 from rfl]
    unfold parsePercent
    rw [hpf]
    show jsMax 0 (jsMin (150 : ℚ) 100) = 100
    unfold jsMin jsMax
    rw [if_neg (by norm_num : ¬(150 : ℚ) ≤ 100),
      if_pos (by norm_num : (0 : ℚ) ≤ 100)]
  · unfold scrollToAction
    rw [if_pos rfl]
  · intro hscroll
    unfold scrollToAction
    rw [if_neg (by simp), if_pos hscroll]
  · intro hns
    unfold scrollToAction
    rw [if_neg (by simp), if_neg hns]
    exact ⟨_, rfl⟩

/-- Closed instantiation of `scrollToPercentage_spec`. -/
theorem scrollToPercentage_spec_witness :
    scrollToAction false 300 100 ("150".data) = .elementScroll 200 ∧
    scrollToAction false 100 100 ("50%".data) =
      .scrollIntoView ("center".data) := by
  constructor
  · have h := (scrollToPercentage_spec 300 100 ("150".data)).2.2.2.1
      (by norm_num)
    rw [h]
    have h150 := (scrollToPercentage_spec 300 100 ("150".data)).2.1.2
    rw [h150]
    norm_num
  · obtain ⟨block, hb⟩ := (scrollToPercentage_spec 100 100 ("50%".data)).2.2.2.2
      (by norm_num)
    have hpf : parseFloatJS (removeFirstChar '%' (jsTrim ("50%".data))) =
        some (50 : ℚ) := by
      rw [show removeFirstChar '%' (jsTrim ("50%".data)) = "50".data from rfl]
      rw [parseFloatJS_digits _ (by decide) (by decide)]
      norm_num [show parseDecDigits ("50".data) = 50 from rfl]
    have hp : parsePercent ("50%".data) = 50 := by
      unfold parsePercent
      rw [hpf]
      show jsMax 0 (jsMin (50 : ℚ) 100) = 50
      unfold jsMin jsMax
      rw [if_pos (by norm_num : (50 : ℚ) ≤ 100),
        if_pos (by norm_num : (0 : ℚ) ≤ 50)]
    unfold scrollToAction
    rw [if_neg (by simp), if_neg (by norm_num), hp]
    norm_num

/-! ### Cached-action replay (`runCachedStep`)

The replay loop makes up to `maxSteps` attempts (default 3); each attempt
settles and re-captures the page state before dispatching.  Attempt
outcomes and the optional language-model fallback are oracles; the trace
records the captures, the attempt executions and the fallback call. -/

/-- What one `runCachedAttempt` invocation did: threw, returned a failed
action output, or succeeded. -/
inductive AttemptResult where
  | threw (msg : JSStr)
  | failed (msg : JSStr)
  | succeeded
deriving DecidableEq

/-- Observable side effects of the replay loop. -/
inductive ReplayEvent where
  | capture (i : Nat)
  | attemptExec (i : Nat)
  | fallbackCall
deriving DecidableEq

/-- The `replayStepMeta` record. -/
structure ReplayMeta where
  usedCachedAction : Bool
  fallbackUsed : Bool
  retries : Nat
  cachedXPath : Option JSStr
  fallbackXPath : Option JSStr
deriving DecidableEq

inductive TaskStatusM where
  | completed
  | failed
deriving DecidableEq

/-- The `TaskOutput` fields the replay path produces. -/
structure TaskOutputM where
  status : TaskStatusM
  output : JSStr
  replayStepMeta : Option ReplayMeta
deriving DecidableEq

/-- The `CachedActionInput` fields the loop reads. -/
structure CachedActionM where
  actionType : JSStr
  xpath : Option JSStr
  method : Option JSStr
  arguments : List JSStr

/-- The `for (attempt …)` loop: run attempt `i` (capture, then execute),
retry on throw or failure while attempts remain, return the 1-based attempt
index on success, and thread `lastError`. -/
def runAttempts (attempts : Nat → AttemptResult) :
    Nat → Nat → Option JSStr → List ReplayEvent × Option Nat × Option JSStr
  | _, 0, lastErr => ([], none, lastErr)
  | i, rem + 1, _lastErr =>
    match attempts i with
    | .threw msg =>
      (.capture i :: .attemptExec i ::
          (runAttempts attempts (i + 1) rem (some msg)).1,
        (runAttempts attempts (i + 1) rem (some msg)).2.1,
        (runAttempts attempts (i + 1) rem (some msg)).2.2)
    | .failed msg =>
      (.capture i :: .attemptExec i ::
          (runAttempts attempts (i + 1) rem (some msg)).1,
        (runAttempts attempts (i + 1) rem (some msg)).2.1,
        (runAttempts attempts (i + 1) rem (some msg)).2.2)
    | .succeeded => ([.capture i, .attemptExec i], some (i + 1), none)

/-- `runCachedStep`: navigation and `complete` pseudo-actions bypass the
loop, malformed entries fail fast, and otherwise the bounded attempt loop
runs with the optional fallback hook after exhaustion. -/
def runCachedStep (maxSteps : Nat) (cached : CachedActionM)
    (attempts : Nat → AttemptResult) (fallback : Option TaskOutputM) :
    TaskOutputM × List ReplayEvent :=
  if cached.actionType = "goToUrl".data then
    match cached.arguments.head? with
    | some url =>
      if url.isEmpty then
        ({ status := .failed, output := "Missing URL for goToUrl".data,
           replayStepMeta := none }, [])
      else
        ({ status := .completed, output := "Navigated".data,
           replayStepMeta := some ⟨true, false, 1, none, none⟩ }, [])
    | none =>
      ({ status := .failed, output := "Missing URL for goToUrl".data,
         replayStepMeta := none }, [])
  else if cached.actionType = "complete".data then
    ({ status := .completed, output := "Task Complete".data,
       replayStepMeta := some ⟨true, false, 1, none, none⟩ }, [])
  else if ¬cached.actionType = "actElement".data ∨ cached.xpath = none ∨
      cached.method = none then
    ({ status := .failed, output := "Unsupported cached action".data,
       replayStepMeta := none }, [])
  else
    match runAttempts attempts 0 maxSteps none with
    | (trace, some retries, _) =>
      ({ status := .completed, output := "Executed cached action".data,
         replayStepMeta := some ⟨true, false, retries, cached.xpath, none⟩ },
       trace)
    | (trace, none, lastErr) =>
      match fallback with
      | some fb =>
        ({ fb with replayStepMeta := some ⟨true, true, maxSteps, cached.xpath,
            match fb.replayStepMeta with
            | some m => m.fallbackXPath
            | none => none⟩ },
         trace ++ [.fallbackCall])
      | none =>
        ({ status := .failed,
           output := match lastErr with
             | some m => m
             | none => "Failed to execute cached action".data,
           replayStepMeta := some ⟨true, false, maxSteps, cached.xpath, none⟩ },
         trace)

/-- Is this event an attempt execution? -/
def isExec : ReplayEvent → Bool
  | .attemptExec _ => true
  | _ => false

/-- How many attempts a trace records. -/
def execCount (trace : List ReplayEvent) : Nat :=
  (trace.filter isExec).length

theorem runAttempts_threw {attempts : Nat → AttemptResult} {i rem : Nat}
    {le : Option JSStr} {msg : JSStr} (h : attempts i = .threw msg) :
    runAttempts attempts i (rem + 1) le =
      (.capture i :: .attemptExec i ::
          (runAttempts attempts (i + 1) rem (some msg)).1,
        (runAttempts attempts (i + 1) rem (some msg)).2.1,
        (runAttempts attempts (i + 1) rem (some msg)).2.2) := by
  conv_lhs => rw [runAttempts]
  rw [h]

theorem runAttempts_failed {attempts : Nat → AttemptResult} {i rem : Nat}
    {le : Option JSStr} {msg : JSStr} (h : attempts i = .failed msg) :
    runAttempts attempts i (rem + 1) le =
      (.capture i :: .attemptExec i ::
          (runAttempts attempts (i + 1) rem (some msg)).1,
        (runAttempts attempts (i + 1) rem (some msg)).2.1,
        (runAttempts attempts (i + 1) rem (some msg)).2.2) := by
  conv_lhs => rw [runAttempts]
  rw [h]

theorem runAttempts_succeeded {attempts : Nat → AttemptResult} {i rem : Nat}
    {le : Option JSStr} (h : attempts i = .succeeded) :
    runAttempts attempts i (rem + 1) le =
      ([.capture i, .attemptExec i], some (i + 1), none) := by
  conv_lhs => rw [runAttempts]
  rw [h]

theorem runAttempts_execCount (attempts : Nat → AttemptResult) :
    ∀ (rem i : Nat) (le : Option JSStr),
      execCount (runAttempts attempts i rem le).1 ≤ rem ∧
      (∀ j, ReplayEvent.attemptExec j ∈ (runAttempts attempts i rem le).1 →
        ReplayEvent.capture j ∈ (runAttempts attempts i rem le).1) ∧
      ReplayEvent.fallbackCall ∉ (runAttempts attempts i rem le).1 := by
  intro rem
  induction rem with
  | zero =>
    intro i le
    refine ⟨by simp [runAttempts, execCount], ?_, by simp [runAttempts]⟩
    intro j hj
    simp [runAttempts] at hj
  | succ rem ih =>
    intro i le
    cases hAtt : attempts i with
    | threw msg =>
      rw [runAttempts_threw hAtt]
      obtain ⟨ih1, ih2, ih3⟩ := ih (i + 1) (some msg)
      refine ⟨?_, ?_, ?_⟩
      · simpa [execCount, List.filter_cons, isExec] using ih1
      · intro j hj
        simp only [List.mem_cons] at hj ⊢
        rcases hj with hj | hj | hj
        · cases hj
        · injection hj with hj
          exact Or.inl (by rw [hj])
        · exact Or.inr (Or.inr (ih2 j hj))
      · simp only [List.mem_cons]
        push_neg
        exact ⟨by simp, by simp, ih3⟩
    | failed msg =>
      rw [runAttempts_failed hAtt]
      obtain ⟨ih1, ih2, ih3⟩ := ih (i + 1) (some msg)
      refine ⟨?_, ?_, ?_⟩
      · simpa [execCount, List.filter_cons, isExec] using ih1
      · intro j hj
        simp only [List.mem_cons] at hj ⊢
        rcases hj with hj | hj | hj
        · cases hj
        · injection hj with hj
          exact Or.inl (by rw [hj])
        · exact Or.inr (Or.inr (ih2 j hj))
      · simp only [List.mem_cons]
        push_neg
        exact ⟨by simp, by simp, ih3⟩
    | succeeded =>
      rw [runAttempts_succeeded hAtt]
      refine ⟨by simp [execCount, List.filter_cons, isExec], ?_, by simp⟩
      intro j hj
      simp only [List.mem_cons, List.not_mem_nil, or_false] at hj ⊢
      rcases hj with hj | hj
      · cases hj
      · injection hj with hj
        exact Or.inl (by rw [hj])

theorem runAttempts_all_fail (attempts : Nat → AttemptResult) :
    ∀ (rem i : Nat) (le : Option JSStr),
      (∀ j, i ≤ j → j < i + rem → attempts j ≠ .succeeded) →
      (runAttempts attempts i rem le).2.1 = none := by
  intro rem
  induction rem with
  | zero => intro i le _; rfl
  | succ rem ih =>
    intro i le hall
    cases hAtt : attempts i with
    | threw msg =>
      rw [runAttempts_threw hAtt]
      exact ih (i + 1) (some msg) (fun j h1 h2 => hall j (by omega) (by omega))
    | failed msg =>
      rw [runAttempts_failed hAtt]
      exact ih (i + 1) (some msg) (fun j h1 h2 => hall j (by omega) (by omega))
    | succeeded =>
      exact absurd hAtt (hall i (le_refl i) (by omega))

/-- C9.  The replay loop makes at most `maxSteps` attempts, each preceded
by a page-state capture; when every attempt fails and a fallback hook is
configured, the hook runs exactly once and its result is returned tagged
`fallbackUsed := true` with `retries = maxSteps`; with no hook a typed
failed result is returned. -/
theorem runCachedStep_spec (maxSteps : Nat) (cached : CachedActionM)
    (attempts : Nat → AttemptResult) (fallback : Option TaskOutputM)
    (xp mth : JSStr)
    (hact : cached.actionType = "actElement".data)
    (hx : cached.xpath = some xp) (hm : cached.method = some mth) :
    (execCount (runCachedStep maxSteps cached attempts fallback).2 ≤ maxSteps ∧
      ∀ j, ReplayEvent.attemptExec j ∈
          (runCachedStep maxSteps cached attempts fallback).2 →
        ReplayEvent.capture j ∈
          (runCachedStep maxSteps cached attempts fallback).2) ∧
    (∀ fb, (∀ j < maxSteps, attempts j ≠ .succeeded) → fallback = some fb →
      (runCachedStep maxSteps cached attempts fallback).1 =
        { fb with replayStepMeta := some ⟨true, true, maxSteps, cached.xpath,
            match fb.replayStepMeta with
            | some m => m.fallbackXPath
            | none => none⟩ } ∧
      ((runCachedStep maxSteps cached attempts fallback).2.filter
        (fun e => e = ReplayEvent.fallbackCall)).length = 1) ∧
    ((∀ j < maxSteps, attempts j ≠ .succeeded) → fallback = none →
      (runCachedStep maxSteps cached attempts fallback).1.status = .failed ∧
      (runCachedStep maxSteps cached attempts fallback).1.replayStepMeta =
        some ⟨true, false, maxSteps, cached.xpath, none⟩) := by
  have hne1 : ¬cached.actionType = "goToUrl".data := by
    rw [hact]; decide
  have hne2 : ¬cached.actionType = "complete".data := by
    rw [hact]; decide
  have hne3 : ¬(¬cached.actionType = "actElement".data ∨ cached.xpath = none ∨
      cached.method = none) := by
    push_neg
    exact ⟨hact, by rw [hx]; simp, by rw [hm]; simp⟩
  have hstep : runCachedStep maxSteps cached attempts fallback =
      (match runAttempts attempts 0 maxSteps none with
       | (trace, some retries, _) =>
         ({ status := .completed, output := "Executed cached action".data,
            replayStepMeta := some ⟨true, false, retries, cached.xpath, none⟩ },
          trace)
       | (trace, none, lastErr) =>
         match fallback with
         | some fb =>
           ({ fb with replayStepMeta := some ⟨true, true, maxSteps, cached.xpath,
               match fb.replayStepMeta with
               | some m => m.fallbackXPath
               | none => none⟩ },
            trace ++ [.fallbackCall])
         | none =>
           ({ status := .failed,
              output := match lastErr with
                | some m => m
                | none => "Failed to execute cached action".data,
              replayStepMeta := some ⟨true, false, maxSteps, cached.xpath, none⟩ },
            trace)) := by
    unfold runCachedStep
    rw [if_neg hne1, if_neg hne2, if_neg hne3]
  obtain ⟨hc1, hc2, hc3⟩ := runAttempts_execCount attempts maxSteps 0 none
  refine ⟨?_, ?_, ?_⟩
  · rw [hstep]
    cases hr : runAttempts attempts 0 maxSteps none with
    | mk tr rest =>
      rw [hr] at hc1 hc2 hc3
      obtain ⟨res, le⟩ := rest
      cases res with
      | some retries => exact ⟨hc1, hc2⟩
      | none =>
        cases fallback with
        | some fb =>
          refine ⟨?_, ?_⟩
          · simpa [execCount, List.filter_append] using hc1
          · intro j hj
            rw [List.mem_append] at hj
            rcases hj with hj | hj
            · exact List.mem_append.mpr (Or.inl (hc2 j hj))
            · simp at hj
        | none => exact ⟨hc1, hc2⟩
  · intro fb hall hfb
    subst hfb
    have hnone := runAttempts_all_fail attempts maxSteps 0 none
      (fun j h1 h2 => hall j (by omega))
    rw [hstep]
    cases hr : runAttempts attempts 0 maxSteps none with
    | mk tr rest =>
      rw [hr] at hnone hc3
      obtain ⟨res, le⟩ := rest
      simp only at hnone
      subst hnone
      refine ⟨rfl, ?_⟩
      rw [List.filter_append]
      rw [List.length_append]
      have h0 : (tr.filter (fun e => e = ReplayEvent.fallbackCall)).length = 0 := by
        rw [List.length_eq_zero]
        rw [List.filter_eq_nil_iff]
        intro a ha
        simp only [decide_eq_true_eq]
        intro hcontra
        subst hcontra
        exact hc3 ha
      rw [h0]
      rfl
  · intro hall hfb
    subst hfb
    have hnone := runAttempts_all_fail attempts maxSteps 0 none
      (fun j h1 h2 => hall j (by omega))
    rw [hstep]
    cases hr : runAttempts attempts 0 maxSteps none with
    | mk tr rest =>
      rw [hr] at hnone
      obtain ⟨res, le⟩ := rest
      simp only at hnone
      subst hnone
      exact ⟨rfl, rfl⟩

/-- Closed instantiation of `runCachedStep_spec`: three failing attempts,
fallback configured. -/
theorem runCachedStep_spec_witness :
    (runCachedStep 3
        ⟨"actElement".data, some ("/html[1]".data), some ("click".data), []⟩
        (fun _ => .failed ("no element".data))
        (some ⟨.completed, "resolved".data, none⟩)).1 =
      ⟨.completed, "resolved".data,
        some ⟨true, true, 3, some ("/html[1]".data), none⟩⟩ := by
  have h := (runCachedStep_spec 3
    ⟨"actElement".data, some ("/html[1]".data), some ("click".data), []⟩
    (fun _ => .failed ("no element".data))
    (some ⟨.completed, "resolved".data, none⟩)
    ("/html[1]".data) ("click".data) rfl rfl rfl).2.1
    ⟨.completed, "resolved".data, none⟩
    (by intro j hj; simp) rfl
  exact h.1

/-! ### Out-of-process frame discovery waves (`fetchIframeAXTrees`)

`fetchIframeAXTrees` processes the Playwright frame tree in waves: the
first wave is the main frame's children, each wave is handled before its
children start, and `processOOPIFRecursive` assigns a frame index from the
shared counter, recording the parent's index from `playwrightFrameToIndex`
(`?? null`).  A frame that is not out-of-process (its `newCDPSession`
throws) is skipped.  The JS runs a wave's frames concurrently on one
thread; index assignment is synchronous, so the wave is modelled as a
sequential fold in list order. -/

/-- A Playwright frame: identity token, parent, and whether an independent
debugging session can be attached (out-of-process). -/
structure FrameM where
  fid : Nat
  parent : Option Nat
  isOOPIF : Bool

/-- Number-keyed map get. -/
def natMapGet : List (Nat × Nat) → Nat → Option Nat
  | [], _ => none
  | (k, v) :: rest, q => if k = q then some v else natMapGet rest q

/-- Number-keyed map set. -/
def natMapSet : List (Nat × Nat) → Nat → Nat → List (Nat × Nat)
  | [], k, v => [(k, v)]
  | (k', v') :: rest, k, v =>
    if k' = k then (k', v) :: rest else (k', v') :: natMapSet rest k v

/-- The mutable state threaded through OOPIF processing. -/
structure OOPIFState where
  nextFrameIndex : Nat
  frameToIndex : List (Nat × Nat)
  recorded : List (Nat × Option Nat)
  assignments : List (Nat × Nat)

/-- One `processOOPIFRecursive` call on frame `fid`: skip already-processed
frames and the main frame (which would be mapped to index 0 — a branch the
wave loop never reaches), skip same-origin frames whose session attach
throws, otherwise take the next index and record
`playwrightFrameToIndex.get(parentFrame) ?? null` as the parent index. -/
def processOOPIF (frames : List FrameM) (mainId : Nat) (st : OOPIFState)
    (fid : Nat) : OOPIFState :=
  if (natMapGet st.frameToIndex fid).isSome then st
  else if fid = mainId then
    { st with frameToIndex := natMapSet st.frameToIndex fid 0 }
  else
    match frames.find? (fun f => f.fid = fid) with
    | none => st
    | some fr =>
      if !fr.isOOPIF then st
      else
        { nextFrameIndex := st.nextFrameIndex + 1
          frameToIndex := natMapSet st.frameToIndex fid st.nextFrameIndex
          recorded := st.recorded ++
            [(fid,
              match fr.parent with
              | some p => natMapGet (natMapSet st.frameToIndex fid st.nextFrameIndex) p
              | none => none)]
          assignments := st.assignments ++ [(fid, st.nextFrameIndex)] }

/-- The frames whose parent lies in `parents` (`framesByParent`). -/
def childrenOf (frames : List FrameM) (parents : List Nat) : List Nat :=
  (frames.filter (fun f =>
    match f.parent with
    | some p => parents.contains p
    | none => false)).map (fun f => f.fid)

/-- The wave loop: handle the whole current wave, then its children. -/
def runWavesAux (frames : List FrameM) (mainId : Nat) :
    Nat → List Nat → OOPIFState → OOPIFState
  | 0, _, st => st
  | fuel + 1, wave, st =>
    if wave.isEmpty then st
    else
      runWavesAux frames mainId fuel (childrenOf frames wave)
        (wave.foldl (processOOPIF frames mainId) st)

/-- Wave-based OOPIF processing from the main frame's children, the
counter continuing after the DOM walk's frames. -/
def runWaves (frames : List FrameM) (mainId nextStart : Nat) : OOPIFState :=
  runWavesAux frames mainId (frames.length + 1) (childrenOf frames [mainId])
    { nextFrameIndex := nextStart, frameToIndex := [], recorded := [],
      assignments := [] }

/-- C5.  Evaluating the wave processing at the failing input: a direct
out-of-process child of the main frame records `parentFrameIndex = null`
even though its parent is the main frame, whose index is 0 — the wave loop
never enters the main frame into `playwrightFrameToIndex`, contradicting
the code's own comment that the parent is guaranteed processed.  Deeper
frames do record their (OOPIF) parent's index: in a depth-3 chain only the
first level is wrong. -/
theorem processOOPIF_parent_index_bug :
    (runWaves [⟨0, none, false⟩, ⟨1, some 0, true⟩] 0 1).recorded =
      [(1, none)] ∧
    (runWaves [⟨0, none, false⟩, ⟨1, some 0, true⟩] 0 1).assignments =
      [(1, 1)] ∧
    (runWaves [⟨0, none, false⟩, ⟨1, some 0, true⟩, ⟨2, some 1, true⟩,
        ⟨3, some 2, true⟩] 0 1).recorded =
      [(1, none), (2, some 1), (3, some 2)] ∧
    (some 0 : Option Nat) ≠ none :=
  ⟨rfl, rfl, rfl, by decide⟩

/-! ### The DOM-settle detector (`waitForSettledDOM`)

The detector is embedded as a discrete-time state machine over a
chronological queue of network events.  `inflight` is the tracked request
set with start times (`inflight` + `meta`, always updated together);
`quiet` is the armed quiet-window timer's deadline; `sweepNext` the next
stalled-request sweep tick; `globalT` the global timeout.  A step processes
the earliest pending occurrence — quiet deadline, global deadline, queued
event, or sweep tick, in that priority at ties — mirroring the handlers:
requests (except WebSocket/EventSource) enter `inflight` and clear the
quiet timer; any of the finish paths removes the request and re-arms the
quiet timer at `now + 500` when the set empties; the sweep force-completes
requests older than 2000ms and re-arms the quiet timer if the set is empty
and no timer is armed; the quiet and global timers resolve. -/

/-- A network-level occurrence delivered to the detector's handlers.
`persistent` marks WebSocket/EventSource requests, which are skipped. -/
inductive NetEvent where
  | request (id : JSStr) (persistent : Bool)
  | finish (id : JSStr)
deriving DecidableEq

/-- The detector's state. -/
structure SettleState where
  time : Nat
  inflight : List (JSStr × Nat)
  quiet : Option Nat
  sweepNext : Nat
  globalT : Nat
  queue : List (Nat × NetEvent)
  result : Option Nat

/-- `Map.delete`: drop the binding of `q`. -/
def removeId : List (JSStr × Nat) → JSStr → List (JSStr × Nat)
  | [], _ => []
  | (k, v) :: rest, q => if k = q then rest else (k, v) :: removeId rest q

/-- `inflight.delete(id)` returned true: the id was tracked. -/
def hasId (m : List (JSStr × Nat)) (q : JSStr) : Bool :=
  (jsMapGet m q).isSome

/-- The earliest pending occurrence time. -/
def settleTmin (s : SettleState) : Nat :=
  let t1 := min s.globalT s.sweepNext
  let t2 :=
    match s.quiet with
    | some d => min t1 d
    | none => t1
  match s.queue.head? with
  | some te => min t2 te.1
  | none => t2

/-- Handle one queued network event at time `tmin`. -/
def procEvent (s : SettleState) (tmin : Nat) (e : NetEvent)
    (rest : List (Nat × NetEvent)) : SettleState :=
  match e with
  | .request id persistent =>
    if persistent then { s with time := tmin, queue := rest }
    else
      { s with
        time := tmin
        queue := rest
        inflight := jsMapSet s.inflight id tmin
        quiet := none }
  | .finish id =>
    if hasId s.inflight id then
      { s with
        time := tmin
        queue := rest
        inflight := removeId s.inflight id
        quiet := (if (removeId s.inflight id).isEmpty then some (tmin + 500)
          else none) }
    else { s with time := tmin, queue := rest }

/-- One sweep tick at time `tmin`: force-complete requests outstanding for
more than 2000ms, then `maybeQuiet`. -/
def stepSweep (s : SettleState) (tmin : Nat) : SettleState :=
  { s with
    time := tmin
    inflight := s.inflight.filter (fun p => !(decide (tmin - p.2 > 2000)))
    sweepNext := s.sweepNext + 500
    quiet :=
      (match s.quiet with
      | some d => some d
      | none =>
        if (s.inflight.filter (fun p => !(decide (tmin - p.2 > 2000)))).isEmpty
        then some (tmin + 500)
        else none) }

/-- One step of the detector. -/
def settleStep (s : SettleState) : SettleState :=
  if s.result.isSome then s
  else if s.quiet = some (settleTmin s) then
    { s with time := settleTmin s, result := some (settleTmin s) }
  else if s.globalT = settleTmin s then
    { s with time := settleTmin s, result := some (settleTmin s) }
  else
    match s.queue with
    | (t, e) :: rest =>
      if t = settleTmin s then procEvent s (settleTmin s) e rest
      else stepSweep s (settleTmin s)
    | [] => stepSweep s (settleTmin s)

/-- The state after subscribing: nothing tracked, the initial `maybeQuiet`
arming the quiet timer at 500, the first sweep at 500, the global timer at
`timeoutMs`. -/
def settleInit (queue : List (Nat × NetEvent)) (timeoutMs : Nat) : SettleState :=
  { time := 0, inflight := [], quiet := some 500, sweepNext := 500,
    globalT := timeoutMs, queue := queue, result := none }

/-- Iterate the detector. -/
def settleRun : Nat → SettleState → SettleState
  | 0, s => s
  | n + 1, s => settleRun n (settleStep s)

/-- Enough steps to reach resolution: every step either consumes a queued
event, advances the sweep toward the global deadline, or resolves. -/
def settleMeasure (s : SettleState) : Nat :=
  s.queue.length + (s.globalT + 500 - s.sweepNext) / 500 + 1

theorem settleTmin_le_global (s : SettleState) : settleTmin s ≤ s.globalT := by
  unfold settleTmin
  cases hq : s.quiet <;> cases hh : s.queue.head? <;>
    simp only [Nat.min_def] <;> repeat' split
  all_goals omega

theorem settleTmin_le_sweep (s : SettleState) : settleTmin s ≤ s.sweepNext := by
  unfold settleTmin
  cases hq : s.quiet <;> cases hh : s.queue.head? <;>
    simp only [Nat.min_def] <;> repeat' split
  all_goals omega

theorem settleTmin_le_quiet (s : SettleState) (d : Nat) (h : s.quiet = some d) :
    settleTmin s ≤ d := by
  unfold settleTmin
  rw [h]
  cases hh : s.queue.head? <;>
    simp only [Nat.min_def] <;> repeat' split
  all_goals omega

theorem settleTmin_le_head (s : SettleState) (t : Nat) (e : NetEvent)
    (rest : List (Nat × NetEvent)) (h : s.queue = (t, e) :: rest) :
    settleTmin s ≤ t := by
  unfold settleTmin
  rw [h]
  simp only [List.head?_cons]
  cases hq : s.quiet <;>
    simp only [Nat.min_def] <;> repeat' split
  all_goals omega

theorem settleTmin_cases (s : SettleState) :
    settleTmin s = s.globalT ∨ settleTmin s = s.sweepNext ∨
    s.quiet = some (settleTmin s) ∨
    (∃ te, s.queue.head? = some te ∧ settleTmin s = te.1) := by
  unfold settleTmin
  cases hq : s.quiet with
  | none =>
    cases hh : s.queue.head? with
    | none =>
      rcases min_cases s.globalT s.sweepNext with ⟨h1, _⟩ | ⟨h1, _⟩
      · exact Or.inl h1
      · exact Or.inr (Or.inl h1)
    | some te =>
      rcases min_cases (min s.globalT s.sweepNext) te.1 with ⟨h1, _⟩ | ⟨h1, _⟩
      · rcases min_cases s.globalT s.sweepNext with ⟨h2, _⟩ | ⟨h2, _⟩
        · exact Or.inl (h1.trans h2)
        · exact Or.inr (Or.inl (h1.trans h2))
      · exact Or.inr (Or.inr (Or.inr ⟨te, rfl, h1⟩))
  | some d =>
    cases hh : s.queue.head? with
    | none =>
      rcases min_cases (min s.globalT s.sweepNext) d with ⟨h1, _⟩ | ⟨h1, _⟩
      · rcases min_cases s.globalT s.sweepNext with ⟨h2, _⟩ | ⟨h2, _⟩
        · exact Or.inl (h1.trans h2)
        · exact Or.inr (Or.inl (h1.trans h2))
      · exact Or.inr (Or.inr (Or.inl (congrArg some h1.symm)))
    | some te =>
      rcases min_cases (min (min s.globalT s.sweepNext) d) te.1 with ⟨h1, _⟩ | ⟨h1, _⟩
      · rcases min_cases (min s.globalT s.sweepNext) d with ⟨h2, _⟩ | ⟨h2, _⟩
        · rcases min_cases s.globalT s.sweepNext with ⟨h3, _⟩ | ⟨h3, _⟩
          · exact Or.inl ((h1.trans h2).trans h3)
          · exact Or.inr (Or.inl ((h1.trans h2).trans h3))
        · exact Or.inr (Or.inr (Or.inl (congrArg some (h1.trans h2).symm)))
      · exact Or.inr (Or.inr (Or.inr ⟨te, rfl, h1⟩))

theorem settleStep_resolved (s : SettleState) (h : s.result.isSome) :
    settleStep s = s := by
  unfold settleStep
  rw [if_pos h]

theorem settleRun_resolved (n : Nat) (s : SettleState) (h : s.result.isSome) :
    settleRun n s = s := by
  induction n with
  | zero => rfl
  | succ n ih =>
    have e : settleRun (n + 1) s = settleRun n (settleStep s) := rfl
    rw [e, settleStep_resolved s h]
    exact ih

theorem procEvent_fields (s : SettleState) (tmin : Nat) (e : NetEvent)
    (rest : List (Nat × NetEvent)) :
    (procEvent s tmin e rest).queue = rest ∧
    (procEvent s tmin e rest).sweepNext = s.sweepNext ∧
    (procEvent s tmin e rest).globalT = s.globalT ∧
    (procEvent s tmin e rest).result = s.result ∧
    (procEvent s tmin e rest).time = tmin := by
  cases e with
  | request id persistent => cases persistent <;> simp [procEvent]
  | finish id =>
    cases hc : hasId s.inflight id <;> simp [procEvent, hc]

theorem stepSweep_fields (s : SettleState) (tmin : Nat) :
    (stepSweep s tmin).queue = s.queue ∧
    (stepSweep s tmin).sweepNext = s.sweepNext + 500 ∧
    (stepSweep s tmin).globalT = s.globalT ∧
    (stepSweep s tmin).result = s.result ∧
    (stepSweep s tmin).time = tmin :=
  ⟨rfl, rfl, rfl, rfl, rfl⟩

theorem stepSweep_inflight (s : SettleState) (tmin : Nat) :
    (stepSweep s tmin).inflight =
      s.inflight.filter (fun p => !(decide (tmin - p.2 > 2000))) := rfl

theorem stepSweep_quiet_eq (s : SettleState) (tmin : Nat) :
    (stepSweep s tmin).quiet =
      (match s.quiet with
      | some d => some d
      | none =>
        if (s.inflight.filter (fun p => !(decide (tmin - p.2 > 2000)))).isEmpty
        then some (tmin + 500)
        else none) := rfl

theorem stepSweep_quiet_some (s : SettleState) (tmin d : Nat)
    (hq : s.quiet = some d) : (stepSweep s tmin).quiet = some d := by
  rw [stepSweep_quiet_eq, hq]

theorem stepSweep_quiet_cases (s : SettleState) (tmin d : Nat)
    (h : (stepSweep s tmin).quiet = some d) :
    s.quiet = some d ∨ d = tmin + 500 := by
  rw [stepSweep_quiet_eq] at h
  cases hq : s.quiet with
  | some d0 =>
    rw [hq] at h
    have h2 : some d0 = some d := h
    exact Or.inl h2
  | none =>
    rw [hq] at h
    have h2 : (if (s.inflight.filter
        (fun p => !(decide (tmin - p.2 > 2000)))).isEmpty = true
      then some (tmin + 500) else (none : Option Nat)) = some d := h
    by_cases hc : (s.inflight.filter
        (fun p => !(decide (tmin - p.2 > 2000)))).isEmpty = true
    · rw [if_pos hc] at h2
      exact Or.inr (Option.some.inj h2).symm
    · rw [if_neg hc] at h2
      exact Option.noConfusion h2

theorem stepSweep_quiet_ne_none (s : SettleState) (tmin : Nat)
    (h : (stepSweep s tmin).inflight = []) :
    (stepSweep s tmin).quiet ≠ none := by
  have hi : s.inflight.filter (fun p => !(decide (tmin - p.2 > 2000))) = [] := h
  cases hq : s.quiet with
  | some d0 =>
    rw [stepSweep_quiet_some s tmin d0 hq]
    simp
  | none =>
    have e : (stepSweep s tmin).quiet = some (tmin + 500) := by
      rw [stepSweep_quiet_eq, hq, hi]
      simp
    rw [e]
    simp

theorem jsMapSet_ne_nil {α : Type} (m : List (JSStr × α)) (k : JSStr) (v : α) :
    jsMapSet m k v ≠ [] := by
  cases m with
  | nil => simp [jsMapSet]
  | cons p rest =>
    obtain ⟨k0, v0⟩ := p
    unfold jsMapSet
    split <;> simp

theorem settleStep_eq_quiet (s : SettleState) (hns : ¬ s.result.isSome = true)
    (hq : s.quiet = some (settleTmin s)) :
    settleStep s =
      { s with time := settleTmin s, result := some (settleTmin s) } := by
  unfold settleStep
  rw [if_neg hns, if_pos hq]

theorem settleStep_eq_global (s : SettleState) (hns : ¬ s.result.isSome = true)
    (hq : ¬ s.quiet = some (settleTmin s)) (hg : s.globalT = settleTmin s) :
    settleStep s =
      { s with time := settleTmin s, result := some (settleTmin s) } := by
  unfold settleStep
  rw [if_neg hns, if_neg hq, if_pos hg]

theorem settleStep_eq_nil (s : SettleState) (hns : ¬ s.result.isSome = true)
    (hq : ¬ s.quiet = some (settleTmin s)) (hg : ¬ s.globalT = settleTmin s)
    (hqu : s.queue = []) :
    settleStep s = stepSweep s (settleTmin s) := by
  unfold settleStep
  rw [if_neg hns, if_neg hq, if_neg hg, hqu]

theorem settleStep_eq_cons (s : SettleState) (hns : ¬ s.result.isSome = true)
    (hq : ¬ s.quiet = some (settleTmin s)) (hg : ¬ s.globalT = settleTmin s)
    (t : Nat) (e : NetEvent) (rest : List (Nat × NetEvent))
    (hqu : s.queue = (t, e) :: rest) :
    settleStep s =
      (if t = settleTmin s then procEvent s (settleTmin s) e rest
        else stepSweep s (settleTmin s)) := by
  unfold settleStep
  rw [if_neg hns, if_neg hq, if_neg hg, hqu]

theorem settleStep_cases (s : SettleState) (h : s.result = none) :
    (s.quiet = some (settleTmin s) ∧
      settleStep s =
        { s with time := settleTmin s, result := some (settleTmin s) }) ∨
    (¬ s.quiet = some (settleTmin s) ∧ s.globalT = settleTmin s ∧
      settleStep s =
        { s with time := settleTmin s, result := some (settleTmin s) }) ∨
    (¬ s.quiet = some (settleTmin s) ∧ ¬ s.globalT = settleTmin s ∧
      ∃ t e rest, s.queue = (t, e) :: rest ∧ t = settleTmin s ∧
        settleStep s = procEvent s (settleTmin s) e rest) ∨
    (¬ s.quiet = some (settleTmin s) ∧ ¬ s.globalT = settleTmin s ∧
      settleStep s = stepSweep s (settleTmin s) ∧
      settleTmin s = s.sweepNext) := by
  have hns : ¬ (s.result.isSome = true) := by simp [h]
  by_cases hq : s.quiet = some (settleTmin s)
  · exact Or.inl ⟨hq, settleStep_eq_quiet s hns hq⟩
  · by_cases hg : s.globalT = settleTmin s
    · exact Or.inr (Or.inl ⟨hq, hg, settleStep_eq_global s hns hq hg⟩)
    · cases hqu : s.queue with
      | nil =>
        refine Or.inr (Or.inr (Or.inr
          ⟨hq, hg, settleStep_eq_nil s hns hq hg hqu, ?_⟩))
        rcases settleTmin_cases s with h1 | h1 | h1 | ⟨te, hte, h2⟩
        · exact absurd h1.symm hg
        · exact h1
        · exact absurd h1 hq
        · rw [hqu] at hte
          exact Option.noConfusion hte
      | cons te0 rest =>
        obtain ⟨t, e⟩ := te0
        have he := settleStep_eq_cons s hns hq hg t e rest hqu
        by_cases ht : t = settleTmin s
        · rw [if_pos ht] at he
          exact Or.inr (Or.inr (Or.inl ⟨hq, hg, t, e, rest, rfl, ht, he⟩))
        · rw [if_neg ht] at he
          refine Or.inr (Or.inr (Or.inr ⟨hq, hg, he, ?_⟩))
          rcases settleTmin_cases s with h1 | h1 | h1 | ⟨te2, hte, h2⟩
          · exact absurd h1.symm hg
          · exact h1
          · exact absurd h1 hq
          · rw [hqu, List.head?_cons] at hte
            have h3 : (t, e) = te2 := Option.some.inj hte
            rw [← h3] at h2
            exact absurd h2.symm ht

theorem settleStep_progress (s : SettleState) (h : s.result = none) :
    (settleStep s).result.isSome ∨
      settleMeasure (settleStep s) < settleMeasure s := by
  rcases settleStep_cases s h with ⟨_, he⟩ | ⟨_, _, he⟩ |
      ⟨_, _, t, e, rest, hqu, _, he⟩ | ⟨_, hg, he, hsw⟩
  · rw [he]; exact Or.inl rfl
  · rw [he]; exact Or.inl rfl
  · right
    rw [he]
    obtain ⟨hq2, hsw2, hg2, _, _⟩ := procEvent_fields s (settleTmin s) e rest
    unfold settleMeasure
    rw [hq2, hsw2, hg2, hqu, List.length_cons]
    omega
  · right
    rw [he]
    obtain ⟨hq2, hsw2, hg2, _, _⟩ := stepSweep_fields s (settleTmin s)
    unfold settleMeasure
    rw [hq2, hsw2, hg2]
    have h1 : settleTmin s ≤ s.globalT := settleTmin_le_global s
    have h2 : s.sweepNext < s.globalT := by omega
    have key : s.globalT + 500 - s.sweepNext =
        (s.globalT - s.sweepNext) + 500 := by omega
    have key2 : s.globalT + 500 - (s.sweepNext + 500) =
        s.globalT - s.sweepNext := by omega
    rw [key, key2, Nat.add_div_right _ (by norm_num : (0 : Nat) < 500)]
    omega

theorem settleRun_terminates :
    ∀ n s, settleMeasure s ≤ n → (settleRun n s).result.isSome := by
  intro n
  induction n with
  | zero =>
    intro s hm
    unfold settleMeasure at hm
    omega
  | succ n ih =>
    intro s hm
    have e : settleRun (n + 1) s = settleRun n (settleStep s) := rfl
    rw [e]
    cases hres : s.result with
    | some r =>
      rw [settleStep_resolved s (by rw [hres]; rfl),
        settleRun_resolved n s (by rw [hres]; rfl), hres]
      rfl
    | none =>
      rcases settleStep_progress s hres with hs | hs
      · rw [settleRun_resolved n _ hs]
        exact hs
      · exact ih (settleStep s) (by omega)

theorem settleStep_globalT (s : SettleState) :
    (settleStep s).globalT = s.globalT := by
  cases hres : s.result with
  | some r => rw [settleStep_resolved s (by rw [hres]; rfl)]
  | none =>
    rcases settleStep_cases s hres with ⟨_, he⟩ | ⟨_, _, he⟩ |
        ⟨_, _, t, e, rest, _, _, he⟩ | ⟨_, _, he, _⟩
    · rw [he]
    · rw [he]
    · rw [he]; exact (procEvent_fields s _ e rest).2.2.1
    · rw [he]; exact (stepSweep_fields s _).2.2.1

theorem settleStep_result_le (s : SettleState) (r : Nat) (h : s.result = none)
    (h2 : (settleStep s).result = some r) : r ≤ s.globalT := by
  rcases settleStep_cases s h with ⟨_, he⟩ | ⟨_, _, he⟩ |
      ⟨_, _, t, e, rest, _, _, he⟩ | ⟨_, _, he, _⟩
  · rw [he] at h2
    have h3 : settleTmin s = r := Option.some.inj h2
    rw [← h3]
    exact settleTmin_le_global s
  · rw [he] at h2
    have h3 : settleTmin s = r := Option.some.inj h2
    rw [← h3]
    exact settleTmin_le_global s
  · rw [he, (procEvent_fields s _ e rest).2.2.2.1, h] at h2
    exact Option.noConfusion h2
  · rw [he, (stepSweep_fields s _).2.2.2.1, h] at h2
    exact Option.noConfusion h2

theorem settleRun_result_le :
    ∀ n s r, s.result = none → (settleRun n s).result = some r →
      r ≤ s.globalT := by
  intro n
  induction n with
  | zero =>
    intro s r h h2
    rw [show settleRun 0 s = s from rfl, h] at h2
    exact Option.noConfusion h2
  | succ n ih =>
    intro s r h h2
    rw [show settleRun (n + 1) s = settleRun n (settleStep s) from rfl] at h2
    cases hres : (settleStep s).result with
    | some r2 =>
      rw [settleRun_resolved n _ (by rw [hres]; rfl), hres] at h2
      have h3 : r2 = r := Option.some.inj h2
      rw [← h3]
      exact settleStep_result_le s r2 h hres
    | none =>
      have h3 := ih (settleStep s) r hres h2
      rwa [settleStep_globalT] at h3

theorem settleRun_quiet_bound :
    ∀ n s d r, s.result = none → s.inflight = [] → s.quiet = some d →
      (∀ te ∈ s.queue, ∀ id, te.2 ≠ NetEvent.request id false) →
      (settleRun n s).result = some r → r ≤ d := by
  intro n
  induction n with
  | zero =>
    intro s d r h _ _ _ h2
    rw [show settleRun 0 s = s from rfl, h] at h2
    exact Option.noConfusion h2
  | succ n ih =>
    intro s d r h hin hq hque h2
    rw [show settleRun (n + 1) s = settleRun n (settleStep s) from rfl] at h2
    rcases settleStep_cases s h with ⟨hq1, he⟩ | ⟨_, _, he⟩ |
        ⟨_, _, t, e, rest, hqu, ht, he⟩ | ⟨_, _, he, _⟩
    · rw [he] at h2
      have hsome : ({ s with
          time := settleTmin s
          result := some (settleTmin s) } : SettleState).result.isSome = true := rfl
      rw [settleRun_resolved n _ hsome] at h2
      have hr : settleTmin s = r := Option.some.inj h2
      have hd : d = settleTmin s := Option.some.inj (hq.symm.trans hq1)
      omega
    · rw [he] at h2
      have hsome : ({ s with
          time := settleTmin s
          result := some (settleTmin s) } : SettleState).result.isSome = true := rfl
      rw [settleRun_resolved n _ hsome] at h2
      have hr : settleTmin s = r := Option.some.inj h2
      have hle := settleTmin_le_quiet s d hq
      omega
    · rw [he] at h2
      have hmem : (t, e) ∈ s.queue := by rw [hqu]; simp
      have hrest : ∀ te ∈ rest, ∀ id, te.2 ≠ NetEvent.request id false := by
        intro te hte id2
        exact hque te (by rw [hqu]; exact List.mem_cons_of_mem _ hte) id2
      cases e with
      | request id persistent =>
        cases persistent with
        | false => exact absurd rfl (hque (t, NetEvent.request id false) hmem id)
        | true =>
          have hpe : procEvent s (settleTmin s) (NetEvent.request id true) rest
              = { s with time := settleTmin s, queue := rest } := rfl
          rw [hpe] at h2
          exact ih { s with time := settleTmin s, queue := rest }
            d r h hin hq hrest h2
      | finish id =>
        have hnotid : hasId s.inflight id = false := by
          rw [hin]; rfl
        have hpe : procEvent s (settleTmin s) (NetEvent.finish id) rest
            = { s with time := settleTmin s, queue := rest } := by
          simp only [procEvent]
          rw [hnotid]
          simp
        rw [hpe] at h2
        exact ih { s with time := settleTmin s, queue := rest }
          d r h hin hq hrest h2
    · rw [he] at h2
      refine ih (stepSweep s (settleTmin s)) d r ?_ ?_ ?_ ?_ h2
      · rw [(stepSweep_fields s _).2.2.2.1]
        exact h
      · rw [stepSweep_inflight, hin]
        rfl
      · exact stepSweep_quiet_some s _ d hq
      · rw [(stepSweep_fields s _).1]
        exact hque

/-- The run invariant: the clock never passes the global deadline, the next
sweep is at most one interval ahead, an armed quiet deadline lies within one
window of the clock, an empty tracked set always has the quiet timer armed,
and the pending events are chronological and never in the past. -/
def SettleInv (s : SettleState) : Prop :=
  s.time ≤ s.globalT ∧
  s.time ≤ s.sweepNext ∧
  s.sweepNext ≤ s.time + 500 ∧
  (∀ d, s.quiet = some d → s.time ≤ d ∧ d ≤ s.time + 500) ∧
  (s.inflight = [] → s.quiet ≠ none) ∧
  s.queue.Pairwise (fun a b => a.1 ≤ b.1) ∧
  (∀ te ∈ s.queue, s.time ≤ te.1)

theorem settleTmin_ge_time (s : SettleState) (h1 : s.time ≤ s.globalT)
    (h2 : s.time ≤ s.sweepNext)
    (h3 : ∀ d, s.quiet = some d → s.time ≤ d)
    (h4 : ∀ te ∈ s.queue, s.time ≤ te.1) :
    s.time ≤ settleTmin s := by
  unfold settleTmin
  cases hq : s.quiet with
  | none =>
    cases hqu : s.queue with
    | nil =>
      simp only [List.head?_nil, Nat.min_def]
      repeat' split
      all_goals omega
    | cons te rest =>
      have h5 := h4 te (by rw [hqu]; simp)
      simp only [List.head?_cons, Nat.min_def]
      repeat' split
      all_goals omega
  | some d =>
    have h5 := h3 d hq
    cases hqu : s.queue with
    | nil =>
      simp only [List.head?_nil, Nat.min_def]
      repeat' split
      all_goals omega
    | cons te rest =>
      have h6 := h4 te (by rw [hqu]; simp)
      simp only [List.head?_cons, Nat.min_def]
      repeat' split
      all_goals omega

theorem settleTmin_le_entries (s : SettleState)
    (h6 : s.queue.Pairwise (fun a b => a.1 ≤ b.1)) :
    ∀ te ∈ s.queue, settleTmin s ≤ te.1 := by
  intro te hte
  cases hqu : s.queue with
  | nil =>
    rw [hqu] at hte
    exact absurd hte (List.not_mem_nil te)
  | cons te0 rest =>
    have hh : settleTmin s ≤ te0.1 :=
      settleTmin_le_head s te0.1 te0.2 rest (by rw [hqu])
    rw [hqu] at hte h6
    rcases List.mem_cons.mp hte with h9 | hmem
    · rw [h9]
      exact hh
    · have h8 := (List.pairwise_cons.mp h6).1 te hmem
      omega

theorem SettleInv_step (s : SettleState) (h : SettleInv s) :
    SettleInv (settleStep s) := by
  cases hres : s.result with
  | some r =>
    rw [settleStep_resolved s (by rw [hres]; rfl)]
    exact h
  | none =>
    obtain ⟨h1, h2, h3, h4, h5, h6, h7⟩ := h
    have htg : settleTmin s ≤ s.globalT := settleTmin_le_global s
    have hts : settleTmin s ≤ s.sweepNext := settleTmin_le_sweep s
    have htt : s.time ≤ settleTmin s :=
      settleTmin_ge_time s h1 h2 (fun d hd => (h4 d hd).1) h7
    rcases settleStep_cases s hres with ⟨hq1, he⟩ | ⟨_, _, he⟩ |
        ⟨_, _, t, e, rest, hqu, ht, he⟩ | ⟨_, _, he, hsw⟩
    · rw [he]
      simp only [SettleInv]
      refine ⟨htg, hts, by omega, ?_, h5, h6, settleTmin_le_entries s h6⟩
      intro d hd
      have hb := h4 d hd
      have hle := settleTmin_le_quiet s d hd
      omega
    · rw [he]
      simp only [SettleInv]
      refine ⟨htg, hts, by omega, ?_, h5, h6, settleTmin_le_entries s h6⟩
      intro d hd
      have hb := h4 d hd
      have hle := settleTmin_le_quiet s d hd
      omega
    · rw [he]
      have hpc := List.pairwise_cons.mp (hqu ▸ h6)
      have hrest : ∀ te ∈ rest, settleTmin s ≤ te.1 := by
        intro te hte
        have h8 := hpc.1 te hte
        omega
      cases e with
      | request id persistent =>
        cases persistent with
        | true =>
          have hpe : procEvent s (settleTmin s) (NetEvent.request id true) rest
              = { s with time := settleTmin s, queue := rest } := rfl
          rw [hpe]
          simp only [SettleInv]
          refine ⟨htg, hts, by omega, ?_, h5, hpc.2, hrest⟩
          intro d hd
          have hb := h4 d hd
          have hle := settleTmin_le_quiet s d hd
          omega
        | false =>
          have hpe : procEvent s (settleTmin s) (NetEvent.request id false) rest
              = { s with
                  time := settleTmin s
                  queue := rest
                  inflight := jsMapSet s.inflight id (settleTmin s)
                  quiet := none } := rfl
          rw [hpe]
          simp only [SettleInv]
          refine ⟨htg, hts, by omega, ?_, ?_, hpc.2, hrest⟩
          · intro d hd
            exact Option.noConfusion hd
          · intro hx
            exact absurd hx (jsMapSet_ne_nil s.inflight id (settleTmin s))
      | finish id =>
        cases hc : hasId s.inflight id with
        | true =>
          have hpe : procEvent s (settleTmin s) (NetEvent.finish id) rest
              = { s with
                  time := settleTmin s
                  queue := rest
                  inflight := removeId s.inflight id
                  quiet := (if (removeId s.inflight id).isEmpty
                    then some (settleTmin s + 500) else none) } := by
            simp only [procEvent]
            rw [hc]
            simp
          rw [hpe]
          simp only [SettleInv]
          refine ⟨htg, hts, by omega, ?_, ?_, hpc.2, hrest⟩
          · intro d hd
            by_cases hie : (removeId s.inflight id).isEmpty = true
            · rw [if_pos hie] at hd
              have h9 : settleTmin s + 500 = d := Option.some.inj hd
              omega
            · rw [if_neg hie] at hd
              exact Option.noConfusion hd
          · intro hx
            rw [hx]
            simp
        | false =>
          have hpe : procEvent s (settleTmin s) (NetEvent.finish id) rest
              = { s with time := settleTmin s, queue := rest } := by
            simp only [procEvent]
            rw [hc]
            simp
          rw [hpe]
          simp only [SettleInv]
          refine ⟨htg, hts, by omega, ?_, h5, hpc.2, hrest⟩
          intro d hd
          have hb := h4 d hd
          have hle := settleTmin_le_quiet s d hd
          omega
    · rw [he]
      refine ⟨?_, ?_, ?_, ?_, ?_, ?_, ?_⟩
      · rw [(stepSweep_fields s _).2.2.1, (stepSweep_fields s _).2.2.2.2]
        exact htg
      · rw [(stepSweep_fields s _).2.1, (stepSweep_fields s _).2.2.2.2]
        omega
      · rw [(stepSweep_fields s _).2.1, (stepSweep_fields s _).2.2.2.2]
        omega
      · intro d hd
        rw [(stepSweep_fields s _).2.2.2.2]
        rcases stepSweep_quiet_cases s (settleTmin s) d hd with hq2 | hq2
        · have hb := h4 d hq2
          have hle := settleTmin_le_quiet s d hq2
          omega
        · omega
      · intro hx
        exact stepSweep_quiet_ne_none s (settleTmin s) hx
      · rw [(stepSweep_fields s _).1]
        exact h6
      · rw [(stepSweep_fields s _).1]
        intro te hte
        rw [(stepSweep_fields s _).2.2.2.2]
        exact settleTmin_le_entries s h6 te hte

theorem SettleInv_run (n : Nat) (s : SettleState) (h : SettleInv s) :
    SettleInv (settleRun n s) := by
  induction n generalizing s with
  | zero => exact h
  | succ n ih =>
    have e : settleRun (n + 1) s = settleRun n (settleStep s) := rfl
    rw [e]
    exact ih _ (SettleInv_step s h)

theorem SettleInv_init (queue : List (Nat × NetEvent)) (T : Nat)
    (hs : queue.Pairwise (fun a b => a.1 ≤ b.1)) :
    SettleInv (settleInit queue T) := by
  simp only [SettleInv, settleInit]
  refine ⟨Nat.zero_le _, by omega, by omega, ?_, ?_, hs,
    fun te _ => Nat.zero_le _⟩
  · intro d hd
    have h0 : (500 : Nat) = d := Option.some.inj hd
    omega
  · intro _
    simp

/-- C4.  The two temporal bounds of the settle detector.  First, for every
chronological event queue the detector resolves (within `settleMeasure`
steps) at a clock value `r ≤ timeoutMs`: the global timeout (default
10000ms) caps resolution even if some requests never finish.  Second, from
any reachable unresolved state in which the tracked in-flight set is empty
and no tracked (non-persistent) request remains to start — in particular
the state at the moment the in-flight set last becomes empty — every
resolution happens within `quietWindow + sweepInterval = 500 + 500` of that
state's clock. -/
theorem waitForSettledDOM_bounds (queue : List (Nat × NetEvent)) (T : Nat)
    (hsorted : queue.Pairwise (fun a b => a.1 ≤ b.1)) :
    (∃ r, (settleRun (settleMeasure (settleInit queue T))
        (settleInit queue T)).result = some r ∧ r ≤ T) ∧
    (∀ n s, settleRun n (settleInit queue T) = s → s.result = none →
      s.inflight = [] →
      (∀ te ∈ s.queue, ∀ id, te.2 ≠ NetEvent.request id false) →
      ∀ m r, (settleRun m s).result = some r →
        r ≤ s.time + 500 + 500) := by
  constructor
  · have hterm := settleRun_terminates (settleMeasure (settleInit queue T))
      (settleInit queue T) (le_refl _)
    cases hres : (settleRun (settleMeasure (settleInit queue T))
        (settleInit queue T)).result with
    | none =>
      rw [hres] at hterm
      exact absurd hterm (by simp)
    | some r =>
      refine ⟨r, rfl, ?_⟩
      exact settleRun_result_le (settleMeasure (settleInit queue T))
        (settleInit queue T) r rfl hres
  · intro n s hs hres hin hque m r hr
    have hinv : SettleInv s :=
      hs ▸ SettleInv_run n (settleInit queue T) (SettleInv_init queue T hsorted)
    obtain ⟨h1, h2, h3, h4, h5, h6, h7⟩ := hinv
    cases hq : s.quiet with
    | none => exact absurd hq (h5 hin)
    | some d =>
      have hb := settleRun_quiet_bound m s d r hres hin hq hque hr
      have hd := (h4 d hq).2
      omega

/-- The bounds instantiated at the empty event queue and the default
10000ms timeout: the run resolves, at the initial quiet deadline 500. -/
theorem waitForSettledDOM_bounds_witness :
    (∃ r, (settleRun (settleMeasure (settleInit [] 10000))
        (settleInit [] 10000)).result = some r ∧ r ≤ 10000) ∧
    (settleRun (settleMeasure (settleInit [] 10000))
        (settleInit [] 10000)).result = some 500 :=
  ⟨(waitForSettledDOM_bounds [] 10000 List.Pairwise.nil).1, rfl⟩

end HyperAgent
